import Mathlib

set_option maxHeartbeats 1000000
set_option maxRecDepth 4000

/-!
Verification development for the okteto client-side progress-tracking layer:
a shallow embedding of `pkg/cmd/build/logger.go` (the event-trace aggregator,
its display driver and the driving consumer loop `deployDisplayer`) and of the
pipeline destroy command (`ExecuteDestroyPipeline` and the synchronization
skeleton of `waitUntilDestroyed`), together with theorems settling the frozen
claims about this code.

Modelling conventions:
 - Go maps (`trace.ongoing`, `trace.stages`) are modelled as association lists
   in insertion order; the claims proved below are insensitive to iteration
   order (they are counts, latches and per-key lookups).
 - `int64` counters are modelled as `Int`; the source only stores and compares
   them (no arithmetic), so overflow is irrelevant.
 - A raw log chunk is modelled post newline-split and post `json.Unmarshal`:
   a `LogLine` is either the empty line, a line the decoder rejects, or a
   decoded `oktetoLog.JSONLogFormat` record.  The splitter (`strings.Split`)
   and decoder (`encoding/json`) are Go library code outside the sources.
 - The terminal output sink (`oktetoLog`) is modelled as a list of `OutEvent`
   values tagged by call site, carrying the formatted payloads.
-/

namespace Okteto

/-- Modelled from the spec: the three output-mode enumerants (`build`,
`destroy`, `test`, spec section 6).  The constants `DeployOutputModeOnBuild`,
`DestroyOutputModeOnBuild` and `TestOutputModeOnBuild` are referenced by
`logger.go` but defined outside the provided sources; only their identity and
distinctness matter to the code. -/
def DeployOutputModeOnBuild : String := "build"

/-- Modelled from the spec: see `DeployOutputModeOnBuild`. -/
def DestroyOutputModeOnBuild : String := "destroy"

/-- Modelled from the spec: see `DeployOutputModeOnBuild`. -/
def TestOutputModeOnBuild : String := "test"

/-- largeContextThreshold (logger.go line 37): 50MB in bytes. -/
def largeContextThreshold : Int := 50000000

/-- RE2 whitespace class `\s` = `[\t\n\f\r ]`, used by `nameRegex`. -/
def isWsChar (c : Char) : Bool :=
  c = ' ' || c = '\t' || c = '\n' || c = '\x0c' || c = '\r'

/-- Bool-valued prefix test on character lists (first argument is the
pattern), modelling `strings.HasPrefix`. -/
def hasPreCL : List Char → List Char → Bool
  | [], _ => true
  | _ :: _, [] => false
  | a :: as, b :: bs => a = b && hasPreCL as bs

/-- Bool-valued substring test on character lists (first argument is the
pattern), modelling `strings.Contains`. -/
def containsSubCL (pat : List Char) : List Char → Bool
  | [] => hasPreCL pat []
  | c :: t => hasPreCL pat (c :: t) || containsSubCL pat t

/-- strings.Contains(s, sub). -/
def strContains (s sub : String) : Bool := containsSubCL sub.toList s.toList

/-- strings.HasPrefix(s, pre). -/
def strHasPre (s pre : String) : Bool := hasPreCL pre.toList s.toList

/-- The literal marker tested by isTransferringContext (logger.go 244). -/
def internalMark : String := "[internal]"

/-- The literal marker tested by isTransferringContext (logger.go 245). -/
def loadBuildMark : String := "load build"

/-- isTransferringContext (logger.go 243-247). -/
def isTransferringContext (name : String) : Bool :=
  strHasPre name internalMark && strContains name loadBuildMark

/-- The literal part of `nameRegex` (logger.go 32). -/
def nameLit : String := "--name"

/-- Match a literal character list at the head of a list, returning the rest. -/
def dropLit : List Char → List Char → Option (List Char)
  | [], s => some s
  | _ :: _, [] => none
  | a :: as, b :: bs => if a = b then dropLit as bs else none

/-- Try to match `nameRegex` = `--name\s+"([^"]+)"` anchored at the head of
the list, returning the capture group.  Greedy `\s+` and `[^"]+` are
equivalent to maximal munch here because neither class contains the character
that must follow it. -/
def matchNameAt (s : List Char) : Option (List Char) :=
  match dropLit nameLit.toList s with
  | none => none
  | some r1 =>
    if r1.takeWhile isWsChar = [] then none
    else
      match r1.dropWhile isWsChar with
      | [] => none
      | c0 :: r3 =>
        if c0 = '"' then
          if r3.takeWhile (fun c => c != '"') = [] then none
          else
            match r3.dropWhile (fun c => c != '"') with
            | [] => none
            | c1 :: _ =>
              if c1 = '"' then some (r3.takeWhile (fun c => c != '"')) else none
        else none

/-- Leftmost match of `nameRegex` over the whole list (RE2 leftmost
semantics), returning the capture group. -/
def scanName : List Char → Option (List Char)
  | [] => none
  | c :: t =>
    match matchNameAt (c :: t) with
    | some cap => some cap
    | none => scanName t

/-- nameRegex.FindStringSubmatch capture group (logger.go 32 and 226-232):
`some` is a match with its capture, `none` means `len(match) <= 1`. -/
def extractName (s : String) : Option String :=
  (scanName s.toList).map fun l => String.mk l

/-- One buffered log line, modelled after newline-splitting and JSON
decoding: `empty` is the empty string line (skipped at logger.go 172),
`invalid` a line `json.Unmarshal` rejects (logger.go 177), `rec` a decoded
`oktetoLog.JSONLogFormat` record with stage, level and message. -/
inductive LogLine where
  | empty : LogLine
  | invalid : LogLine
  | record (stage level message : String) : LogLine
deriving DecidableEq

/-- A vertex descriptor from one SolveStatus batch: digest key (already
`Encoded()`), name, cached flag, error text, and presence of the completion
marker (`Completed != nil`). -/
structure Vertex where
  digest : String
  name : String
  cached : Bool
  error : String
  completed : Bool
deriving DecidableEq

/-- A status sub-event: vertex key, presence of the completion marker, and
the current/total byte counters. -/
structure VertexStatus where
  vertex : String
  completed : Bool
  current : Int
  total : Int
deriving DecidableEq

/-- A log sub-event: vertex key and its payload, modelled post-split and
post-decode (see `LogLine`). -/
structure VertexLog where
  vertex : String
  data : List LogLine
deriving DecidableEq

/-- client.SolveStatus: one heterogeneous event batch. -/
structure SolveStatus where
  vertexes : List Vertex
  statuses : List VertexStatus
  logs : List VertexLog
deriving DecidableEq

/-- vertexInfo (logger.go 249-256): per-step state in the registry. -/
structure VertexInfo where
  name : String
  logs : List LogLine
  currentTransferedContext : Int
  totalTransferedContext : Int
  completed : Bool
  cached : Bool
deriving DecidableEq

/-- buildkit.CommandErr as recorded in `trace.err` (logger.go 203-207):
stage, message and output mode. -/
structure CommandErr where
  stage : String
  err : String
  output : String
deriving DecidableEq

/-- One event written to the output sink (`oktetoLog`), tagged by call site
and carrying the formatted payload. -/
inductive OutEvent where
  | spinnerCtx (bytes : Int)
  | ctxAdvice
  | spinnerMode (text : String)
  | debugBadLine
  | noStageMsg (message : String)
  | stageSet (stage : String)
  | failMsg (message : String)
  | announce (stage : String)
  | printlnMsg (message : String)
  | skipCachedNamed (name : String)
  | skipCachedGeneric
  | updateErrMsg (e : String)
deriving DecidableEq

/-- trace.ongoing, modelled as an association list in insertion order. -/
abbrev Registry := List (String × VertexInfo)

/-- trace (logger.go 93-98). -/
structure Trace where
  err : Option CommandErr
  ongoing : Registry
  stages : List String
  showCtxAdvice : Bool
deriving DecidableEq

/-- newTrace (logger.go 100-106). -/
def newTrace : Trace := ⟨none, [], [], true⟩

/-- Map lookup on the registry. -/
def lookupReg : Registry → String → Option VertexInfo
  | [], _ => none
  | (k, v) :: t, d => if k = d then some v else lookupReg t d

/-- In-place mutation of the entry at a key (pointer update through the map),
identity when the key is absent. -/
def modReg : Registry → String → (VertexInfo → VertexInfo) → Registry
  | [], _, _ => []
  | (k, v) :: t, d, f => if k = d then (k, f v) :: t else (k, v) :: modReg t d f

/-- The vertexInfo created on first sight of a vertex (logger.go 112-116). -/
def freshInfo (rv : Vertex) : VertexInfo :=
  ⟨rv.name, [], 0, 0, false, rv.cached⟩

/-- Get-or-create step of the vertex loop (logger.go 110-117). -/
def registerVertex (m : Registry) (rv : Vertex) : Registry :=
  match lookupReg m rv.digest with
  | some _ => m
  | none => m ++ [(rv.digest, freshInfo rv)]

/-- The error message fmt (logger.go 119). -/
def vertexErrMsg (rv : Vertex) : String :=
  "error on stage " ++ rv.name ++ ": " ++ rv.error

/-- The latch part of the vertex loop body after the error check
(logger.go 121-127). -/
def stepVertexRest (m : Registry) (rv : Vertex) : Registry :=
  let m1 := if rv.cached then modReg m rv.digest (fun v => { v with cached := true }) else m
  if rv.completed then modReg m1 rv.digest (fun v => { v with completed := true }) else m1

/-- The vertex loop of trace.update (logger.go 109-128), with its early
return on a non-empty error string. -/
def procVertexes (m : Registry) : List Vertex → Registry × Option String
  | [] => (m, none)
  | rv :: rest =>
    let m1 := registerVertex m rv
    if rv.error ≠ "" then (m1, some (vertexErrMsg rv))
    else procVertexes (stepVertexRest m1 rv) rest

/-- One iteration of the status loop (logger.go 129-137): unknown keys are
skipped, otherwise completed mirrors the status and the counters are
overwritten. -/
def stepStatus (m : Registry) (s : VertexStatus) : Registry :=
  match lookupReg m s.vertex with
  | none => m
  | some _ =>
    modReg m s.vertex fun v =>
      { v with completed := s.completed
               currentTransferedContext := s.current
               totalTransferedContext := s.total }

/-- One iteration of the log loop (logger.go 138-145): unknown keys are
skipped, otherwise the split lines are appended. -/
def stepLog (m : Registry) (l : VertexLog) : Registry :=
  match lookupReg m l.vertex with
  | none => m
  | some _ => modReg m l.vertex fun v => { v with logs := v.logs ++ l.data }

/-- trace.update (logger.go 108-147). -/
def Trace.update (t : Trace) (ss : SolveStatus) : Trace × Option String :=
  match procVertexes t.ongoing ss.vertexes with
  | (m, some e) => ({ t with ongoing := m }, some e)
  | (m, none) =>
    let m1 := ss.statuses.foldl stepStatus m
    let m2 := ss.logs.foldl stepLog m1
    ({ t with ongoing := m2 }, none)

/-- Accumulator threaded through trace.display: the trace fields it mutates
plus the emitted output. -/
structure DispAcc where
  stages : List String
  showCtxAdvice : Bool
  err : Option CommandErr
  out : List OutEvent
deriving DecidableEq

/-- The sentinel stage skipped by display (logger.go 187). -/
def stageDone : String := "done"

/-- The special-cased unrecoverable stage (logger.go 189). -/
def stageLoadManifest : String := "Load manifest"

/-- The error level string (logger.go 190, 201). -/
def levelError : String := "error"

/-- Processing of one buffered log line inside trace.display
(logger.go 171-213).  The returned Bool is true when `oktetoLog.Fail` fires;
modelled from the spec: `oktetoLog.Fail` (outside the sources) immediately
terminates the whole CLI invocation (spec section 4.3), so it cuts off all
further processing. -/
def dispLine (progress : String) (a : DispAcc) : LogLine → DispAcc × Bool
  | .empty => (a, false)
  | .invalid => ({ a with out := a.out ++ [.debugBadLine] }, false)
  | .record stage level message =>
    if stage = "" then ({ a with out := a.out ++ [.noStageMsg message] }, false)
    else
      let a1 : DispAcc := { a with out := a.out ++ [.stageSet stage] }
      if stage = stageDone then (a1, false)
      else if stage = stageLoadManifest then
        if level = levelError then ({ a1 with out := a1.out ++ [.failMsg message] }, true)
        else (a1, false)
      else
        let a2 : DispAcc :=
          if a1.stages.contains stage then a1
          else
            let a15 : DispAcc :=
              if progress ≠ TestOutputModeOnBuild then
                { a1 with out := a1.out ++ [.announce stage] }
              else a1
            { a15 with stages := a15.stages ++ [stage] }
        if level = levelError then
          if stage ≠ "" then ({ a2 with err := some ⟨stage, message, progress⟩ }, false)
          else (a2, false)
        else ({ a2 with out := a2.out ++ [.printlnMsg message] }, false)

/-- The loop over one step's buffered lines, cut off by a Fail. -/
def dispLines (progress : String) : DispAcc → List LogLine → DispAcc × Bool
  | a, [] => (a, false)
  | a, l :: rest =>
    match dispLine progress a l with
    | (a1, true) => (a1, true)
    | (a1, false) => dispLines progress a1 rest

/-- The context-transfer block of trace.display for one step
(logger.go 151-160). -/
def dispStepCtx (a : DispAcc) (v : VertexInfo) : DispAcc :=
  if isTransferringContext v.name then
    if v.currentTransferedContext != 0 then
      let a1 : DispAcc :=
        if a.showCtxAdvice && decide (largeContextThreshold < v.currentTransferedContext) then
          { a with showCtxAdvice := false, out := a.out ++ [.ctxAdvice] }
        else a
      { a1 with out := a1.out ++ [.spinnerCtx v.currentTransferedContext] }
    else a
  else a

/-- The deploy-mode spinner text (logger.go 164). -/
def deployVerb : String := "Deploying your development environment..."

/-- The destroy-mode spinner text (logger.go 166). -/
def destroyVerb : String := "Destroying your development environment..."

/-- The test-mode spinner text (logger.go 168). -/
def testsVerb : String := "Running tests..."

/-- Spinner text of the mode switch (logger.go 162-169); `none` means the
switch has no matching case and no spinner call happens. -/
def spinnerTextOf (progress : String) : Option String :=
  if progress = DeployOutputModeOnBuild then some deployVerb
  else if progress = DestroyOutputModeOnBuild then some destroyVerb
  else if progress = TestOutputModeOnBuild then some testsVerb
  else none

/-- hasCommandLogs (logger.go 239-241). -/
def hasCommandLogs (v : VertexInfo) : Bool := !v.logs.isEmpty

/-- trace.display body for one step (logger.go 150-217): context block, then
the log block which drains the buffered lines. -/
def dispStep (progress : String) (a : DispAcc) (v : VertexInfo) :
    DispAcc × VertexInfo × Bool :=
  let a0 := dispStepCtx a v
  if hasCommandLogs v then
    let a1 : DispAcc :=
      match spinnerTextOf progress with
      | some s => { a0 with out := a0.out ++ [.spinnerMode s] }
      | none => a0
    match dispLines progress a1 v.logs with
    | (a2, true) => (a2, v, true)
    | (a2, false) => ({ a2 with out := a2.out ++ [.stageSet ""] }, { v with logs := [] }, false)
  else (a0, v, false)

/-- Iteration of trace.display over the registry (map iteration modelled in
list order; the claims proved below are order-insensitive). -/
def dispSteps (progress : String) : DispAcc → Registry → Registry × DispAcc × Bool
  | a, [] => ([], a, false)
  | a, (k, v) :: rest =>
    match dispStep progress a v with
    | (a1, v1, true) => ((k, v1) :: rest, a1, true)
    | (a1, v1, false) =>
      let (rest1, a2, f) := dispSteps progress a1 rest
      ((k, v1) :: rest1, a2, f)

/-- trace.display (logger.go 149-219).  Returns the new trace, the emitted
output, and whether an `oktetoLog.Fail` terminated the invocation. -/
def Trace.display (t : Trace) (progress : String) : Trace × List OutEvent × Bool :=
  let r := dispSteps progress ⟨t.stages, t.showCtxAdvice, t.err, []⟩ t.ongoing
  ({ err := r.2.1.err, ongoing := r.1, stages := r.2.1.stages,
     showCtxAdvice := r.2.1.showCtxAdvice }, r.2.1.out, r.2.2)

/-- The marker substring for the remote test container (logger.go 225). -/
def remoteTestMark : String := "remote-run test"

/-- trace.removeCompletedSteps loop body (logger.go 221-237). -/
def removeLoop : Registry → Registry × List OutEvent
  | [] => ([], [])
  | (k, v) :: rest =>
    let r := removeLoop rest
    if v.completed then
      if strContains v.name remoteTestMark && v.cached then
        match extractName v.name with
        | some n => (r.1, .skipCachedNamed n :: r.2)
        | none => (r.1, .skipCachedGeneric :: r.2)
      else (r.1, r.2)
    else ((k, v) :: r.1, r.2)

/-- trace.removeCompletedSteps (logger.go 221-237). -/
def Trace.removeCompletedSteps (t : Trace) : Trace × List OutEvent :=
  let r := removeLoop t.ongoing
  ({ t with ongoing := r.1 }, r.2)

/-- State of the deployDisplayer consumer loop: the trace plus everything
printed so far. -/
structure LoopState where
  t : Trace
  out : List OutEvent
deriving DecidableEq

/-- The loop state at entry of deployDisplayer (logger.go 49). -/
def initLoop : LoopState := ⟨newTrace, []⟩

/-- One received batch in deployDisplayer (logger.go 71-79): on an update
error the loop logs it at Info level and `continue`s, skipping display and
prune for that batch; otherwise display then removeCompletedSteps run.  The
returned Bool is true when display hit the modelled `oktetoLog.Fail`. -/
def runCycle (mode : String) (st : LoopState) (ss : SolveStatus) : LoopState × Bool :=
  match st.t.update ss with
  | (t1, some e) => (⟨t1, st.out ++ [.updateErrMsg e]⟩, false)
  | (t1, none) =>
    let d := t1.display mode
    if d.2.2 then (⟨d.1, st.out ++ d.2.1⟩, true)
    else
      let r := d.1.removeCompletedSteps
      (⟨r.1, st.out ++ d.2.1 ++ r.2⟩, false)

/-- The deployDisplayer consumer loop over a finite prefix of the channel
stream (logger.go 65-91), ignoring the heartbeat tick and context
cancellation which perform no state change. -/
def runLoop (mode : String) (st : LoopState) : List SolveStatus → LoopState
  | [] => st
  | ss :: rest =>
    match runCycle mode st ss with
    | (st1, true) => st1
    | (st1, false) => runLoop mode st1 rest

/-- The output-mode normalization switch of deployDisplayer
(logger.go 54-63). -/
def normalizeMode (m : String) : String :=
  if m = DeployOutputModeOnBuild then DeployOutputModeOnBuild
  else if m = DestroyOutputModeOnBuild then DestroyOutputModeOnBuild
  else if m = TestOutputModeOnBuild then TestOutputModeOnBuild
  else DeployOutputModeOnBuild

/-- Recognizer for the one-time context advisory event. -/
def isAdviceEv : OutEvent → Bool
  | .ctxAdvice => true
  | _ => false

/-- Number of context advisories in an output stream. -/
def adviceCount (l : List OutEvent) : Nat := l.countP isAdviceEv

/-- Recognizer for the Running-stage announcement of one given stage. -/
def isAnnEv (s : String) : OutEvent → Bool
  | .announce s1 => s1 = s
  | _ => false

/-- Number of Running-stage announcements of one given stage in an output
stream. -/
def annCount (s : String) (l : List OutEvent) : Nat := l.countP (isAnnEv s)

/-- A step qualifying for the context advisory: an internal context-transfer
step whose transferred byte count exceeds the threshold (which makes the
nonzero guard at logger.go 152 automatic). -/
def qualCtx (v : VertexInfo) : Bool :=
  isTransferringContext v.name && decide (largeContextThreshold < v.currentTransferedContext)

/-- Some registered step qualifies for the context advisory. -/
def anyQual (m : Registry) : Bool := m.any fun kv => qualCtx kv.2

/-- Spec-side characterization used by the C6 theorem: some cycle of the run
sees a qualifying step in the registry at display time (after that cycle's
update). -/
def qualRun (mode : String) (st : LoopState) : List SolveStatus → Bool
  | [] => false
  | ss :: rest =>
    anyQual ((st.t.update ss).1.ongoing) || qualRun mode (runCycle mode st ss).1 rest

/-- Registry with no buffered log lines in any step. -/
def AllNL (m : Registry) : Prop := ∀ kv ∈ m, kv.2.logs = ([] : List LogLine)

/-- A batch carrying no log sub-events and no erroring vertex descriptor. -/
def CleanBatch (b : SolveStatus) : Prop :=
  b.logs = [] ∧ ∀ v ∈ b.vertexes, v.error = ""

/-- A sequence of update calls, keeping only the state component as
deployDisplayer does when it continues past update errors. -/
def updSeq (t : Trace) (l : List SolveStatus) : Trace :=
  l.foldl (fun t1 ss => (t1.update ss).1) t

/-- Error of the remote pipeline API, as classified by
oktetoErrors.IsNotFound; the wrapping in destroyPipeline uses `%w` so the
classification survives it. -/
inductive PipeErr where
  | notFound
  | other (msg : String)
deriving DecidableEq

/-- oktetoErrors.IsNotFound on the modelled error sum. -/
def IsNotFound : PipeErr → Bool
  | .notFound => true
  | .other _ => false

/-- types.GitDeployResponse, reduced to the action handle that
waitUntilDestroyed consumes. -/
structure GitDeployResponse where
  actionName : String
deriving DecidableEq

/-- DestroyOptions (destroy command, lines 291-297).  `nsName` stands for the
Namespace field (namespace is a Lean keyword). -/
structure DestroyOptions where
  name : String
  nsName : String
  wait : Bool
  destroyVolumes : Bool
  timeoutMinutes : Nat
deriving DecidableEq

/-- Observable outcome of ExecuteDestroyPipeline: the returned error value
and whether the wait phase (waitUntilDestroyed) was entered. -/
structure ExecOutcome where
  ret : Option PipeErr
  enteredWait : Bool
deriving DecidableEq

/-- Command.ExecuteDestroyPipeline (destroy command, lines 341-375): its
control flow with the external effects as parameters.  `resolveName` models
os.Getwd + model.GetRepositoryURL + getPipelineName, consulted only when
opts.Name is empty; `destroyRes` is the (resp, err) pair produced by the
destroyPipeline helper (both can be nil simultaneously on interrupt);
`waitRes` is the result of waitUntilDestroyed. -/
def ExecuteDestroyPipeline (opts : DestroyOptions)
    (resolveName : Except PipeErr String)
    (destroyRes : Option GitDeployResponse × Option PipeErr)
    (waitRes : Option PipeErr) : ExecOutcome :=
  match (if opts.name = "" then resolveName else Except.ok opts.name) with
  | .error e => ⟨some e, false⟩
  | .ok _ =>
    match destroyRes.2 with
    | some e =>
      if IsNotFound e = false then ⟨some e, false⟩
      else if opts.wait = false then ⟨none, false⟩
      else ⟨none, false⟩
    | none =>
      if opts.wait = false then ⟨none, false⟩
      else
        match destroyRes.1 with
        | some _ =>
          match waitRes with
          | some we => ⟨some we, true⟩
          | none => ⟨none, true⟩
        | none => ⟨none, false⟩

/-- Finishing events of the two background activities supervised by
Command.waitUntilDestroyed (lines 422-442). -/
inductive BgEvent where
  | logStreamDone
  | waitForFinishDone
deriving DecidableEq

/-- Total number of wg.Add(1) calls in waitUntilDestroyed: one at line 424
for the log-streaming goroutine and one at line 433 for the wait-for-finish
goroutine. -/
def wgAddTotal : Nat := 2

/-- wg.Done calls performed when each background activity finishes: the
log-streaming goroutine runs `defer wg.Done()` (line 426); the
wait-for-finish goroutine (lines 434-436) sends on `exit` without ever
calling wg.Done. -/
def wgDone : BgEvent → Nat
  | .logStreamDone => 1
  | .waitForFinishDone => 0

/-- The WaitGroup counter after a sequence of finishing events. -/
def wgCounterAfter (evs : List BgEvent) : Nat :=
  wgAddTotal - (evs.map wgDone).sum

/-- The supervisory goroutine (lines 438-442) runs `wg.Wait()` and then
`close(stop); close(exit)`: the closes happen exactly in executions whose
finishing events bring the counter to zero. -/
def channelsClosed (evs : List BgEvent) : Bool :=
  wgCounterAfter evs = 0

/-- Concrete vertex descriptor carrying an error (counterexample input). -/
def vErr : Vertex := ⟨"v1", "stepA", false, "boom", false⟩

/-- Batch containing only the erroring vertex. -/
def bErr : SolveStatus := ⟨[vErr], [], []⟩

/-- Concrete clean vertex descriptor for a second step. -/
def vB : Vertex := ⟨"v2", "stepB", false, "", false⟩

/-- Batch registering the second step and buffering one decoded record. -/
def bAfterErr : SolveStatus :=
  ⟨[vB], [], [⟨"v2", [.record ("build") ("info") ("hello")]⟩]⟩

/-- Vertex descriptor with the completion marker set (counterexample input). -/
def vComp : Vertex := ⟨"v1", "stepA", false, "", true⟩

/-- Batch containing only the completed vertex. -/
def bVComp : SolveStatus := ⟨[vComp], [], []⟩

/-- Status sub-event for the same step without the completion marker. -/
def bStNot : SolveStatus := ⟨[], [⟨"v1", false, 0, 0⟩], []⟩

/-- Completed vertex under a different key (C3 counterexample input). -/
def vComp3 : Vertex := ⟨"w1", "stepC", false, "", true⟩

/-- Status for the C3 counterexample: no completion marker, counters 7/9. -/
def st3 : VertexStatus := ⟨"w1", false, 7, 9⟩

/-- Trace holding one step with two buffered error-level records
(C4 counterexample input). -/
def t4 : Trace :=
  ⟨none,
   [("v1", ⟨"stepD", [.record ("build") levelError ("m1"), .record ("build") levelError ("m2")],
            0, 0, false, false⟩)],
   [], true⟩

/-- Destroy options with a name and no wait (C5 counterexample input). -/
def opts5 : DestroyOptions := ⟨"app", "", false, false, 5⟩

/-- Scenario-A vertex: the internal context-transfer step. -/
def vCtx : Vertex := ⟨"v1", "[internal] load build definition", false, "", false⟩

/-- Scenario-A batches: register the context step, then a 60MB status. -/
def bCtxV : SolveStatus := ⟨[vCtx], [], []⟩

/-- Scenario-A status batch, repeatable. -/
def bCtxS : SolveStatus := ⟨[], [⟨"v1", false, 60000000, 60000000⟩], []⟩

/-- Trace with one step whose buffered record names the sentinel stage done
(C7 counterexample input). -/
def t7 : Trace :=
  ⟨none, [("v1", ⟨"stepE", [.record stageDone ("info") ("x")], 0, 0, false, false⟩)], [], true⟩

/-- Trace exercising removeCompletedSteps: a completed cached remote-test
step with an extractable name, a completed non-matching step, and an
uncompleted step (C8 witness input). -/
def t8 : Trace :=
  ⟨none,
   [("r1", ⟨"remote-run test --name " ++ "\"unit\"" ++ " ...", [], 0, 0, true, true⟩),
    ("r2", ⟨"other step", [], 0, 0, true, false⟩),
    ("r3", ⟨"still running", [], 0, 0, false, false⟩)],
   [], true⟩

/-- Entry of t8 whose name matches the remote-test marker and the name
pattern (kept equal to the name stored under key r1). -/
def infoW8 : VertexInfo :=
  ⟨"remote-run test --name " ++ "\"unit\"" ++ " ...", [], 0, 0, true, true⟩

/-- Key-indexed invariant on the registry: the key is present and its entry
satisfies Q. -/
def PK (Q : VertexInfo → Prop) (k : String) (m : Registry) : Prop :=
  ∃ v, lookupReg m k = some v ∧ Q v

/-- The error-free part of the vertex loop folded over a list of clean
descriptors (used to characterize the state at the moment of the early
return). -/
def vertexFoldClean (m : Registry) (l : List Vertex) : Registry :=
  l.foldl (fun m1 v => stepVertexRest (registerVertex m1 v) v) m

/-- Trace whose single step has both latches set (C2 witness input). -/
def tW2 : Trace := ⟨none, [("v1", ⟨"stepA", [], 0, 0, true, true⟩)], [], true⟩

/-- Trace with one registered step (C3 witness input). -/
def tW3 : Trace := ⟨none, [("w1", ⟨"stepC", [], 0, 0, true, true⟩)], [], true⟩

/-- Status-only batch whose last status for w1 is st3, followed by a status
for a different key (C3 witness input). -/
def ssW3 : SolveStatus := ⟨[], [⟨"w1", true, 1, 2⟩, st3, ⟨"nokey", true, 5, 5⟩], []⟩

/-- Destroy options requesting the wait phase (C5 witness input). -/
def optsW5 : DestroyOptions := ⟨"app", "", true, false, 5⟩

/-- Batch whose second vertex errors, with a later vertex and a status for
the erroring key that must not be applied (C10 witness input). -/
def ssW10 : SolveStatus := ⟨[vB, vErr, vComp], [⟨"v1", true, 1, 1⟩], []⟩

/-- Display accumulator that already holds a recorded terminal error
(C4 witness input). -/
def aW4 : DispAcc := ⟨[], true, some ⟨"build", "m1", DeployOutputModeOnBuild⟩, []⟩

/-- The skip notice printed for one deleted step, as a function of its
state: a named or generic cached-test-container notice for matching cached
steps, nothing otherwise (spec-side characterization of logger.go 225-233,
compared with the loop translation removeLoop). -/
def noticeOf (v : VertexInfo) : List OutEvent :=
  if strContains v.name remoteTestMark && v.cached then
    match extractName v.name with
    | some n => [.skipCachedNamed n]
    | none => [.skipCachedGeneric]
  else []

/-- The name of the completed cached remote-test step in t8
(C8 witness input). -/
def nameW8 : String := "remote-run test --name " ++ "\"unit\"" ++ " ..."

/-- Empty display accumulator (C7 witness input). -/
def aEmptyD : DispAcc := ⟨[], true, none, []⟩

/-- Display accumulator on which the stage build is already announced
(C7 witness input). -/
def aW7 : DispAcc := ⟨["build"], true, none, []⟩

/-! ### Registry lemmas -/

theorem lookupReg_append_of_some {m : Registry} {d : String} {w : VertexInfo}
    (h : lookupReg m d = some w) (l : Registry) : lookupReg (m ++ l) d = some w := by
  induction m with
  | nil => simp [lookupReg] at h
  | cons kv t ih =>
    obtain ⟨k, v⟩ := kv
    by_cases hk : k = d
    · simpa [lookupReg, hk] using h
    · simp only [lookupReg, hk, if_false, List.cons_append] at h ⊢
      exact ih h

theorem lookupReg_append_of_none {m : Registry} {d : String}
    (h : lookupReg m d = none) (l : Registry) : lookupReg (m ++ l) d = lookupReg l d := by
  induction m with
  | nil => simp
  | cons kv t ih =>
    obtain ⟨k, v⟩ := kv
    by_cases hk : k = d
    · simp [lookupReg, hk] at h
    · simp only [lookupReg, hk, if_false, List.cons_append] at h ⊢
      exact ih h

theorem lookupReg_modReg_self (m : Registry) (d : String) (f : VertexInfo → VertexInfo) :
    lookupReg (modReg m d f) d = (lookupReg m d).map f := by
  induction m with
  | nil => simp [lookupReg, modReg]
  | cons kv t ih =>
    obtain ⟨k, v⟩ := kv
    by_cases hk : k = d
    · simp [lookupReg, modReg, hk]
    · simp [lookupReg, modReg, hk, ih]

theorem lookupReg_modReg_ne (m : Registry) (d : String) (f : VertexInfo → VertexInfo)
    {d1 : String} (h : d ≠ d1) : lookupReg (modReg m d f) d1 = lookupReg m d1 := by
  induction m with
  | nil => simp [modReg]
  | cons kv t ih =>
    obtain ⟨k, v⟩ := kv
    by_cases hk : k = d
    · subst hk
      simp [lookupReg, modReg, h]
    · have h2 : d1 ≠ d := Ne.symm h
      by_cases hk1 : k = d1 <;> simp [lookupReg, modReg, hk, hk1, h2, ih]

theorem registerVertex_of_some {m : Registry} {rv : Vertex} {w : VertexInfo}
    (h : lookupReg m rv.digest = some w) : registerVertex m rv = m := by
  simp [registerVertex, h]

theorem registerVertex_of_none {m : Registry} {rv : Vertex}
    (h : lookupReg m rv.digest = none) :
    lookupReg (registerVertex m rv) rv.digest = some (freshInfo rv) := by
  simp only [registerVertex, h]
  rw [lookupReg_append_of_none h]
  simp [lookupReg]

theorem registerVertex_present (m : Registry) (rv : Vertex) :
    ∃ v, lookupReg (registerVertex m rv) rv.digest = some v := by
  cases h : lookupReg m rv.digest with
  | none => exact ⟨freshInfo rv, registerVertex_of_none h⟩
  | some w => exact ⟨w, by rw [registerVertex_of_some h]; exact h⟩

/-! ### PK preservation through the update layer -/

theorem PK_modReg {Q : VertexInfo → Prop} {f : VertexInfo → VertexInfo}
    (hf : ∀ v, Q v → Q (f v)) {k : String} {m : Registry}
    (h : PK Q k m) (d : String) : PK Q k (modReg m d f) := by
  obtain ⟨v, hv, hQ⟩ := h
  by_cases hd : d = k
  · subst hd
    exact ⟨f v, by rw [lookupReg_modReg_self, hv]; rfl, hf v hQ⟩
  · exact ⟨v, by rw [lookupReg_modReg_ne m d f hd]; exact hv, hQ⟩

theorem PK_registerVertex {Q : VertexInfo → Prop} {k : String} {m : Registry}
    (h : PK Q k m) (rv : Vertex) : PK Q k (registerVertex m rv) := by
  obtain ⟨v, hv, hQ⟩ := h
  cases hl : lookupReg m rv.digest with
  | some w => exact ⟨v, by rw [registerVertex_of_some hl]; exact hv, hQ⟩
  | none =>
    refine ⟨v, ?_, hQ⟩
    simp only [registerVertex, hl]
    exact lookupReg_append_of_some hv _

theorem PK_stepVertexRest {Q : VertexInfo → Prop}
    (h1 : ∀ v, Q v → Q { v with cached := true })
    (h2 : ∀ v, Q v → Q { v with completed := true })
    {k : String} {m : Registry} (h : PK Q k m) (rv : Vertex) :
    PK Q k (stepVertexRest m rv) := by
  unfold stepVertexRest
  by_cases hc : rv.cached <;> by_cases hm : rv.completed <;>
    simp only [hc, hm, if_true, if_false] <;>
    first
      | exact PK_modReg h2 (PK_modReg h1 h _) _
      | exact PK_modReg h1 h _
      | exact PK_modReg h2 h _
      | exact h

theorem PK_procVertexes {Q : VertexInfo → Prop}
    (h1 : ∀ v, Q v → Q { v with cached := true })
    (h2 : ∀ v, Q v → Q { v with completed := true })
    {k : String} :
    ∀ (l : List Vertex) (m : Registry), PK Q k m → PK Q k (procVertexes m l).1 := by
  intro l
  induction l with
  | nil => intro m h; simpa [procVertexes] using h
  | cons rv rest ih =>
    intro m h
    by_cases he : rv.error ≠ ""
    · simpa [procVertexes, he] using PK_registerVertex h rv
    · simp only [procVertexes, he, if_false]
      exact ih _ (PK_stepVertexRest h1 h2 (PK_registerVertex h rv) rv)

theorem PK_stepStatus {Q : VertexInfo → Prop}
    (hs : ∀ (s : VertexStatus) v, Q v →
      Q { v with completed := s.completed, currentTransferedContext := s.current,
                 totalTransferedContext := s.total })
    {k : String} {m : Registry} (h : PK Q k m) (s : VertexStatus) :
    PK Q k (stepStatus m s) := by
  unfold stepStatus
  cases hl : lookupReg m s.vertex with
  | none => exact h
  | some w => exact PK_modReg (hs s) h _

theorem PK_stepLog {Q : VertexInfo → Prop}
    (hl : ∀ (l : VertexLog) v, Q v → Q { v with logs := v.logs ++ l.data })
    {k : String} {m : Registry} (h : PK Q k m) (l : VertexLog) :
    PK Q k (stepLog m l) := by
  unfold stepLog
  cases hx : lookupReg m l.vertex with
  | none => exact h
  | some w => exact PK_modReg (hl l) h _

theorem PK_foldl {α : Type} {Q : VertexInfo → Prop} {k : String}
    {g : Registry → α → Registry}
    (hg : ∀ m x, PK Q k m → PK Q k (g m x)) :
    ∀ (l : List α) (m : Registry), PK Q k m → PK Q k (l.foldl g m) := by
  intro l
  induction l with
  | nil => intro m h; simpa using h
  | cons x rest ih => intro m h; exact ih _ (hg m x h)

theorem update_fields (t : Trace) (ss : SolveStatus) :
    ∃ m, (t.update ss).1 = { t with ongoing := m } := by
  unfold Trace.update
  rcases hp : procVertexes t.ongoing ss.vertexes with ⟨m, o⟩
  cases o <;> exact ⟨_, rfl⟩

theorem PK_update {Q : VertexInfo → Prop}
    (h1 : ∀ v, Q v → Q { v with cached := true })
    (h2 : ∀ v, Q v → Q { v with completed := true })
    (hs : ∀ (s : VertexStatus) v, Q v →
      Q { v with completed := s.completed, currentTransferedContext := s.current,
                 totalTransferedContext := s.total })
    (hl : ∀ (l : VertexLog) v, Q v → Q { v with logs := v.logs ++ l.data })
    {k : String} (t : Trace) (ss : SolveStatus) (h : PK Q k t.ongoing) :
    PK Q k ((t.update ss).1).ongoing := by
  unfold Trace.update
  rcases hp : procVertexes t.ongoing ss.vertexes with ⟨m, o⟩
  have hm : PK Q k m := by
    have := PK_procVertexes h1 h2 ss.vertexes t.ongoing h
    rwa [hp] at this
  cases o with
  | some e => exact hm
  | none =>
    exact PK_foldl (fun m x => (PK_stepLog hl · x)) ss.logs _
      (PK_foldl (fun m x => (PK_stepStatus hs · x)) ss.statuses m hm)

theorem PK_update_nostat {Q : VertexInfo → Prop}
    (h1 : ∀ v, Q v → Q { v with cached := true })
    (h2 : ∀ v, Q v → Q { v with completed := true })
    (hl : ∀ (l : VertexLog) v, Q v → Q { v with logs := v.logs ++ l.data })
    {k : String} (t : Trace) (ss : SolveStatus) (hss : ss.statuses = [])
    (h : PK Q k t.ongoing) : PK Q k ((t.update ss).1).ongoing := by
  unfold Trace.update
  rcases hp : procVertexes t.ongoing ss.vertexes with ⟨m, o⟩
  have hm : PK Q k m := by
    have := PK_procVertexes h1 h2 ss.vertexes t.ongoing h
    rwa [hp] at this
  cases o with
  | some e => exact hm
  | none =>
    rw [hss]
    exact PK_foldl (fun m x => (PK_stepLog hl · x)) ss.logs _ hm

/-! ### The early return of trace.update -/

theorem procVertexes_error {rv : Vertex} (herr : rv.error ≠ "") (post : List Vertex) :
    ∀ (pre : List Vertex) (m : Registry), (∀ v ∈ pre, v.error = "") →
    procVertexes m (pre ++ rv :: post) =
      (registerVertex (vertexFoldClean m pre) rv, some (vertexErrMsg rv)) := by
  intro pre
  induction pre with
  | nil => intro m _; simp [procVertexes, vertexFoldClean, herr]
  | cons v rest ih =>
    intro m hpre
    have hv : v.error = "" := hpre v (by simp)
    simp only [List.cons_append, procVertexes, hv, ne_eq, not_true_eq_false, if_false,
      vertexFoldClean, List.foldl_cons]
    exact ih _ fun w hw => hpre w (by simp [hw])

theorem update_of_error (t : Trace) (ss : SolveStatus) {pre post : List Vertex} {rv : Vertex}
    (hss : ss.vertexes = pre ++ rv :: post)
    (hpre : ∀ v ∈ pre, v.error = "") (herr : rv.error ≠ "") :
    t.update ss =
      ({ t with ongoing := registerVertex (vertexFoldClean t.ongoing pre) rv },
       some (vertexErrMsg rv)) := by
  unfold Trace.update
  rw [hss, procVertexes_error herr post pre t.ongoing hpre]

/-- C10: when a batch contains a vertex descriptor with a non-empty error
string, update returns the formatted error before applying any status or log
sub-event of the batch and before any later vertex descriptor (the registry
is exactly the clean fold over the preceding descriptors plus the get-or-
create registration of the erroring one), yet the erroring vertex is already
registered — freshly, with the descriptor's name and cached flag — when the
error is returned. -/
theorem c10_thm (t : Trace) (ss : SolveStatus) (pre post : List Vertex) (rv : Vertex)
    (hss : ss.vertexes = pre ++ rv :: post)
    (hpre : ∀ v ∈ pre, v.error = "") (herr : rv.error ≠ "") :
    (t.update ss).2 = some (vertexErrMsg rv) ∧
    (t.update ss).1.ongoing = registerVertex (vertexFoldClean t.ongoing pre) rv ∧
    (∃ v, lookupReg ((t.update ss).1).ongoing rv.digest = some v) ∧
    (lookupReg (vertexFoldClean t.ongoing pre) rv.digest = none →
      lookupReg ((t.update ss).1).ongoing rv.digest = some (freshInfo rv)) := by
  have hu := update_of_error t ss hss hpre herr
  refine ⟨by rw [hu], by rw [hu], ?_, ?_⟩
  · rw [hu]
    exact registerVertex_present _ rv
  · intro hnone
    rw [hu]
    exact registerVertex_of_none hnone

/-- Witness for c10_thm at a concrete input: the second vertex of ssW10
errors; the status for its key is not applied and the entry is the fresh
registration. -/
theorem c10_thm_wit :
    (newTrace.update ssW10).2 = some (vertexErrMsg vErr) ∧
    (newTrace.update ssW10).1.ongoing =
      registerVertex (vertexFoldClean newTrace.ongoing [vB]) vErr ∧
    (∃ v, lookupReg ((newTrace.update ssW10).1).ongoing vErr.digest = some v) ∧
    lookupReg ((newTrace.update ssW10).1).ongoing vErr.digest = some (freshInfo vErr) := by
  have h := c10_thm newTrace ssW10 [vB] [vComp] vErr rfl (by decide) (by decide)
  exact ⟨h.1, h.2.1, h.2.2.1, h.2.2.2 (by decide)⟩

/-! ### C1: error propagation and the consumer loop -/

theorem runCycle_of_updateErr (mode : String) {st : LoopState} {ss : SolveStatus}
    {e : String} (h : (st.t.update ss).2 = some e) :
    runCycle mode st ss = (⟨(st.t.update ss).1, st.out ++ [.updateErrMsg e]⟩, false) := by
  unfold runCycle
  rcases hu : st.t.update ss with ⟨t1, o⟩
  rw [hu] at h
  cases o with
  | none => simp at h
  | some e1 =>
    simp only [Option.some.injEq] at h
    subst h
    simp [hu]

theorem runLoop_cons_false {mode : String} {st st1 : LoopState} {ss : SolveStatus}
    {rest : List SolveStatus} (h : runCycle mode st ss = (st1, false)) :
    runLoop mode st (ss :: rest) = runLoop mode st1 rest := by
  simp [runLoop, h]

/-- C1 (amended): a vertex descriptor with a non-empty error string makes
update return the error formatted as error on stage name colon text, on the
first such occurrence; the driving consumer loop deployDisplayer then logs
the message at Info level and skips display and prune for that batch, but it
does NOT stop: it continues consuming subsequent batches with the same
trace. -/
theorem c1_amended (mode : String) (st : LoopState) (ss : SolveStatus)
    (rest : List SolveStatus) (pre post : List Vertex) (rv : Vertex)
    (hss : ss.vertexes = pre ++ rv :: post)
    (hpre : ∀ v ∈ pre, v.error = "") (herr : rv.error ≠ "") :
    (st.t.update ss).2 = some (vertexErrMsg rv) ∧
    runCycle mode st ss =
      (⟨(st.t.update ss).1, st.out ++ [.updateErrMsg (vertexErrMsg rv)]⟩, false) ∧
    runLoop mode st (ss :: rest) =
      runLoop mode ⟨(st.t.update ss).1, st.out ++ [.updateErrMsg (vertexErrMsg rv)]⟩ rest := by
  have herrU : (st.t.update ss).2 = some (vertexErrMsg rv) := by
    rw [update_of_error st.t ss hss hpre herr]
  have hc := runCycle_of_updateErr mode herrU
  exact ⟨herrU, hc, runLoop_cons_false hc⟩

/-- Witness for c1_amended at a concrete input. -/
theorem c1_amended_wit :
    (initLoop.t.update bErr).2 = some (vertexErrMsg vErr) ∧
    runCycle DeployOutputModeOnBuild initLoop bErr =
      (⟨(initLoop.t.update bErr).1, initLoop.out ++ [.updateErrMsg (vertexErrMsg vErr)]⟩,
       false) ∧
    runLoop DeployOutputModeOnBuild initLoop (bErr :: [bAfterErr]) =
      runLoop DeployOutputModeOnBuild
        ⟨(initLoop.t.update bErr).1, initLoop.out ++ [.updateErrMsg (vertexErrMsg vErr)]⟩
        [bAfterErr] :=
  c1_amended DeployOutputModeOnBuild initLoop bErr [bAfterErr] [] [] vErr rfl
    (by decide) (by decide)

/-- C1 counterexample: after the batch whose vertex errors, the consumer
loop keeps going — the next batch is still displayed (its spinner, stage and
message events appear after the logged update error) and registered, which
contradicts the claim that the loop stops and attempts no further display or
prune cycles. -/
theorem c1_cex :
    (runLoop DeployOutputModeOnBuild initLoop [bErr, bAfterErr]).out =
      [.updateErrMsg (vertexErrMsg vErr), .spinnerMode deployVerb,
       .stageSet ("build"), .announce ("build"), .printlnMsg ("hello"),
       .stageSet ("")] ∧
    lookupReg (runLoop DeployOutputModeOnBuild initLoop [bErr, bAfterErr]).t.ongoing
      ("v2") = some ⟨"stepB", [], 0, 0, false, false⟩ := by
  exact ⟨by decide, by decide⟩

/-! ### C2: which flags are latched -/

theorem cached_latch_updSeq (t : Trace) (k : String) (l : List SolveStatus)
    (h : PK (fun v => v.cached = true) k t.ongoing) :
    PK (fun v => v.cached = true) k (updSeq t l).ongoing := by
  induction l generalizing t with
  | nil => simpa [updSeq] using h
  | cons ss rest ih =>
    have h1 : PK (fun v => v.cached = true) k ((t.update ss).1).ongoing :=
      PK_update (Q := fun v => v.cached = true) (fun v _ => rfl) (fun v hv => hv)
        (fun s v hv => hv) (fun x v hv => hv) t ss h
    simpa [updSeq] using ih ((t.update ss).1) h1

theorem completed_latch_updSeq (t : Trace) (k : String) (l : List SolveStatus)
    (hst : ∀ ss ∈ l, ss.statuses = [])
    (h : PK (fun v => v.completed = true) k t.ongoing) :
    PK (fun v => v.completed = true) k (updSeq t l).ongoing := by
  induction l generalizing t with
  | nil => simpa [updSeq] using h
  | cons ss rest ih =>
    have h1 : PK (fun v => v.completed = true) k ((t.update ss).1).ongoing :=
      PK_update_nostat (Q := fun v => v.completed = true) (fun v hv => hv) (fun v _ => rfl)
        (fun x v hv => hv) t ss (hst ss (by simp)) h
    simpa [updSeq] using ih ((t.update ss).1) (fun b hb => hst b (List.mem_cons_of_mem _ hb)) h1

/-- C2 (amended): over any sequence of update calls, a step's cached flag is
a one-way latch under events of every kind; its completed flag is a one-way
latch under vertex descriptor events only — over batches with no status
sub-events it can never revert, but a status sub-event overwrites it (see
the counterexample). -/
theorem c2_amended (t : Trace) (k : String) (l : List SolveStatus) :
    (PK (fun v => v.cached = true) k t.ongoing →
      PK (fun v => v.cached = true) k (updSeq t l).ongoing) ∧
    ((∀ ss ∈ l, ss.statuses = []) →
      PK (fun v => v.completed = true) k t.ongoing →
      PK (fun v => v.completed = true) k (updSeq t l).ongoing) :=
  ⟨cached_latch_updSeq t k l, fun hst => completed_latch_updSeq t k l hst⟩

/-- Witness for c2_amended at a concrete input. -/
theorem c2_amended_wit :
    PK (fun v => v.cached = true) ("v1") (updSeq tW2 [bStNot, bVComp]).ongoing ∧
    PK (fun v => v.completed = true) ("v1") (updSeq tW2 [bVComp]).ongoing := by
  constructor
  · exact (c2_amended tW2 ("v1") [bStNot, bVComp]).1
      ⟨⟨"stepA", [], 0, 0, true, true⟩, rfl, rfl⟩
  · exact (c2_amended tW2 ("v1") [bVComp]).2 (by decide)
      ⟨⟨"stepA", [], 0, 0, true, true⟩, rfl, rfl⟩

/-- C2 counterexample: a vertex descriptor with the completion marker sets
completed to true, and a later status sub-event with no completion marker
resets it to false — the completed flag is not a latch under status events,
contradicting the claim for events of every kind. -/
theorem c2_cex :
    (lookupReg (updSeq newTrace [bVComp]).ongoing ("v1")).map (fun v => v.completed) =
      some true ∧
    (lookupReg (updSeq newTrace [bVComp, bStNot]).ongoing ("v1")).map
      (fun v => v.completed) = some false := by
  exact ⟨by decide, by decide⟩

/-! ### C3: status sub-events are last-write-wins on one shared field -/

theorem stepStatus_other {m : Registry} {s : VertexStatus} {k : String}
    (hne : s.vertex ≠ k) : lookupReg (stepStatus m s) k = lookupReg m k := by
  unfold stepStatus
  cases hl : lookupReg m s.vertex with
  | none => rfl
  | some w => exact lookupReg_modReg_ne m s.vertex _ hne

theorem foldl_stepStatus_other {k : String} :
    ∀ (l : List VertexStatus) (m : Registry), (∀ s ∈ l, s.vertex ≠ k) →
      lookupReg (l.foldl stepStatus m) k = lookupReg m k := by
  intro l
  induction l with
  | nil => intro m _; rfl
  | cons s rest ih =>
    intro m hl
    rw [List.foldl_cons, ih _ (fun x hx => hl x (List.mem_cons_of_mem _ hx)),
      stepStatus_other (hl s (by simp))]

theorem stepStatus_hit {m : Registry} {s : VertexStatus} {w : VertexInfo}
    (h : lookupReg m s.vertex = some w) :
    lookupReg (stepStatus m s) s.vertex =
      some { w with completed := s.completed, currentTransferedContext := s.current,
                    totalTransferedContext := s.total } := by
  unfold stepStatus
  rw [h, lookupReg_modReg_self, h]
  rfl

theorem update_noVertex {t : Trace} {ss : SolveStatus} (hv : ss.vertexes = []) :
    (t.update ss).1.ongoing = ss.logs.foldl stepLog (ss.statuses.foldl stepStatus t.ongoing) ∧
    (t.update ss).2 = none := by
  unfold Trace.update
  rw [hv]
  exact ⟨rfl, rfl⟩

/-- C3 (amended): for a status sub-event on a registered step, update
overwrites currentTransferred and totalTransferred with the event's values
(last-write-wins) and assigns the completed flag from the presence of the
event's completion marker — but this assignment writes the same single
completed field used by the vertex-level latch (there is no independent
status-level field), so it overwrites the latched value rather than
coexisting with it. -/
theorem c3_amended (t : Trace) (ss : SolveStatus) (k : String) (v0 : VertexInfo)
    (l1 l2 : List VertexStatus) (s : VertexStatus)
    (hv : ss.vertexes = []) (hk : lookupReg t.ongoing k = some v0)
    (hst : ss.statuses = l1 ++ s :: l2) (hs : s.vertex = k)
    (hl2 : ∀ s1 ∈ l2, s1.vertex ≠ k) :
    ∃ v, lookupReg ((t.update ss).1).ongoing k = some v ∧
      v.completed = s.completed ∧ v.currentTransferedContext = s.current ∧
      v.totalTransferedContext = s.total := by
  obtain ⟨hong, -⟩ := update_noVertex hv
  rw [hong, hst, List.foldl_append, List.foldl_cons]
  have hpres : PK (fun _ => True) k (l1.foldl stepStatus t.ongoing) :=
    PK_foldl (fun m x => (PK_stepStatus (fun _ _ _ => trivial) · x)) l1 t.ongoing
      ⟨v0, hk, trivial⟩
  obtain ⟨w, hw, -⟩ := hpres
  have hhit := stepStatus_hit (s := s) (by rw [hs]; exact hw)
  rw [hs] at hhit
  have hmid : lookupReg (l2.foldl stepStatus (stepStatus (l1.foldl stepStatus t.ongoing) s)) k =
      some { w with completed := s.completed, currentTransferedContext := s.current,
                    totalTransferedContext := s.total } := by
    rw [foldl_stepStatus_other l2 _ hl2]
    exact hhit
  have hfin : PK (fun v => v.completed = s.completed ∧
      v.currentTransferedContext = s.current ∧ v.totalTransferedContext = s.total) k
      (ss.logs.foldl stepLog (l2.foldl stepStatus
        (stepStatus (l1.foldl stepStatus t.ongoing) s))) :=
    PK_foldl (fun m x => (PK_stepLog (fun _ _ hq => hq) · x)) ss.logs _
      ⟨_, hmid, rfl, rfl, rfl⟩
  exact hfin

/-- Witness for c3_amended at a concrete input: the last status for w1 in
ssW3 is st3, whose values are what the entry holds afterwards. -/
theorem c3_amended_wit :
    ∃ v, lookupReg ((tW3.update ssW3).1).ongoing ("w1") = some v ∧
      v.completed = st3.completed ∧ v.currentTransferedContext = st3.current ∧
      v.totalTransferedContext = st3.total := by
  exact c3_amended tW3 ssW3 ("w1") ⟨"stepC", [], 0, 0, true, true⟩
    [⟨"w1", true, 1, 2⟩] [⟨"nokey", true, 5, 5⟩] st3 rfl rfl rfl rfl (by decide)

/-- C3 counterexample: after the vertex-level latch sets completed, a status
with no completion marker leaves the entry with completed = false while the
counters take the status's values — the status assignment and the
vertex-level latch act on the same single field, so the two cannot differ,
contradicting the claimed independent status-level flag. -/
theorem c3_cex :
    (lookupReg (updSeq newTrace [⟨[vComp3], [], []⟩]).ongoing ("w1")).map
      (fun v => v.completed) = some true ∧
    lookupReg (updSeq newTrace [⟨[vComp3], [], []⟩, ⟨[], [st3], []⟩]).ongoing ("w1") =
      some ⟨"stepC", [], 7, 9, false, false⟩ := by
  exact ⟨by decide, by decide⟩

/-! ### C5: not-found on destroy -/

/-- C5 (amended): when the remote destroy fails with a not-found error,
ExecuteDestroyPipeline never enters the wait phase; and regardless of the
wait flag it returns nil — in particular a caller that did not request
waiting receives nil, not the original not-found error (the error is
swallowed after the IsNotFound check). -/
theorem c5_amended (opts : DestroyOptions) (g : Except PipeErr String)
    (resp : Option GitDeployResponse) (waitRes : Option PipeErr)
    (hname : opts.name ≠ "") :
    ExecuteDestroyPipeline opts g (resp, some PipeErr.notFound) waitRes =
      ⟨none, false⟩ := by
  unfold ExecuteDestroyPipeline
  simp only [hname, if_false, IsNotFound]
  cases h : opts.wait <;> simp

/-- Witness for c5_amended at a concrete input with the wait flag set. -/
theorem c5_amended_wit :
    ExecuteDestroyPipeline optsW5 (Except.ok ("app"))
      (none, some PipeErr.notFound) (some (PipeErr.other ("w"))) = ⟨none, false⟩ :=
  c5_amended optsW5 (Except.ok ("app")) none (some (PipeErr.other ("w"))) (by decide)

/-- C5 counterexample: with Wait not requested and a not-found destroy
error, the function returns nil (ret = none) — not the original not-found
error as the claim states. -/
theorem c5_cex :
    (ExecuteDestroyPipeline opts5 (Except.ok ("app"))
      (none, some PipeErr.notFound) none).ret = none ∧
    (ExecuteDestroyPipeline opts5 (Except.ok ("app"))
      (none, some PipeErr.notFound) none).enteredWait = false ∧
    (none : Option PipeErr) ≠ some PipeErr.notFound := by
  exact ⟨rfl, rfl, by decide⟩

/-! ### C9: the WaitGroup counter of waitUntilDestroyed -/

theorem wgDoneSum_le_count (evs : List BgEvent) :
    (evs.map wgDone).sum ≤ evs.count BgEvent.logStreamDone := by
  induction evs with
  | nil => simp
  | cons e t ih =>
    cases e with
    | logStreamDone =>
      simp [List.count_cons, wgDone]
      omega
    | waitForFinishDone =>
      simp only [List.map_cons, List.sum_cons, List.count_cons, wgDone]
      have : (BgEvent.waitForFinishDone == BgEvent.logStreamDone) = false := by decide
      rw [this]
      omega

/-- C9: the claim is right and the code is wrong.  waitUntilDestroyed calls
wg.Add(1) twice but only the log-streaming goroutine ever calls wg.Done, so
in every execution in which each background activity finishes at most once
(in particular when both finish), the WaitGroup counter never reaches zero
and the supervisory goroutine never closes the stop and exit channels. -/
theorem c9_bug_thm (evs : List BgEvent)
    (h : evs.count BgEvent.logStreamDone ≤ 1) :
    channelsClosed evs = false := by
  have hs := wgDoneSum_le_count evs
  have hne : ¬ (wgCounterAfter evs = 0) := by
    unfold wgCounterAfter wgAddTotal
    omega
  simp [channelsClosed, hne]

/-- Witness for c9_bug_thm at the failing input: both background activities
finish, yet the channels are not closed. -/
theorem c9_bug_thm_wit :
    channelsClosed [BgEvent.logStreamDone, BgEvent.waitForFinishDone] = false :=
  c9_bug_thm [BgEvent.logStreamDone, BgEvent.waitForFinishDone] (by decide)

/-! ### C4: the recorded terminal error is last-write-wins -/

/-- C4 (amended): the trace's terminal error follows the MOST RECENT
error-level record, not the first: processing an error-level record for a
non-sentinel stage overwrites trace.err with that record's command failure,
whatever was recorded before, and a non-error record leaves the recorded
error unchanged; in neither case does processing stop. -/
theorem c4_amended (progress : String) (a : DispAcc) (stage level message : String)
    (h1 : ¬ stage = "") (h2 : ¬ stage = stageDone) (h3 : ¬ stage = stageLoadManifest) :
    ((dispLine progress a (.record stage levelError message)).1.err =
        some ⟨stage, message, progress⟩ ∧
      (dispLine progress a (.record stage levelError message)).2 = false) ∧
    (¬ level = levelError →
      (dispLine progress a (.record stage level message)).1.err = a.err ∧
      (dispLine progress a (.record stage level message)).2 = false) := by
  constructor
  · simp only [dispLine, h1, h2, h3, if_false]
    by_cases hcn : stage ∈ a.stages <;>
      by_cases hp : progress = TestOutputModeOnBuild <;>
        simp [h1, h2, h3, hcn, hp]
  · intro hlvl
    simp only [dispLine, h1, h2, h3, if_false]
    by_cases hcn : stage ∈ a.stages <;>
      by_cases hp : progress = TestOutputModeOnBuild <;>
        simp [h1, h2, h3, hcn, hp, hlvl]

/-- Witness for c4_amended at a concrete input: the pre-recorded error m1 is
overwritten by the error-level record m2, and an info record preserves the
recorded value. -/
theorem c4_amended_wit :
    (dispLine DeployOutputModeOnBuild aW4 (.record ("build") levelError ("m2"))).1.err =
      some ⟨"build", "m2", DeployOutputModeOnBuild⟩ ∧
    (dispLine DeployOutputModeOnBuild aW4 (.record ("build") ("info") ("m2"))).1.err =
      aW4.err := by
  have h := c4_amended DeployOutputModeOnBuild aW4 ("build") ("info") ("m2")
    (by decide) (by decide) (by decide)
  exact ⟨h.1.1, (h.2 (by decide)).1⟩

/-- C4 counterexample: two error-level records in one display call; the
recorded terminal error afterwards is the second one, so the first recorded
error did NOT remain unchanged as the claim states. -/
theorem c4_cex :
    (t4.display DestroyOutputModeOnBuild).1.err =
      some ⟨"build", "m2", DestroyOutputModeOnBuild⟩ ∧
    some (⟨"build", "m2", DestroyOutputModeOnBuild⟩ : CommandErr) ≠
      some (⟨"build", "m1", DestroyOutputModeOnBuild⟩ : CommandErr) := by
  exact ⟨by decide, by decide⟩

/-! ### C8: removeCompletedSteps and the name extraction -/

theorem dropLit_sound : ∀ (p s r : List Char), dropLit p s = some r → s = p ++ r := by
  intro p
  induction p with
  | nil =>
    intro s r h
    simp only [dropLit, Option.some.injEq] at h
    simp [h]
  | cons a as ih =>
    intro s r h
    cases s with
    | nil => simp [dropLit] at h
    | cons b bs =>
      simp only [dropLit] at h
      by_cases hab : a = b
      · rw [if_pos hab] at h
        subst hab
        simpa using ih bs r h
      · rw [if_neg hab] at h
        exact absurd h (by simp)

theorem matchNameAt_sound {s cap : List Char} (h : matchNameAt s = some cap) :
    ∃ ws rest, s = nameLit.toList ++ ws ++ '"' :: (cap ++ '"' :: rest) ∧
      ws ≠ [] ∧ (∀ c ∈ ws, isWsChar c = true) ∧ cap ≠ [] ∧ ∀ c ∈ cap, ¬ c = '"' := by
  unfold matchNameAt at h
  split at h
  · exact absurd h (by simp)
  rename_i r1 hd
  split at h
  · exact absurd h (by simp)
  rename_i hws
  split at h
  · exact absurd h (by simp)
  rename_i c0 r3 hr2
  split at h
  case isFalse => exact absurd h (by simp)
  case isTrue hq =>
    subst hq
    split at h
    · exact absurd h (by simp)
    rename_i hcap
    split at h
    · exact absurd h (by simp)
    rename_i c1 rest hr4
    split at h
    case isFalse => exact absurd h (by simp)
    case isTrue hq1 =>
      subst hq1
      simp only [Option.some.injEq] at h
      subst h
      refine ⟨r1.takeWhile isWsChar, rest, ?_, hws, ?_, hcap, ?_⟩
      · have e1 : s = nameLit.toList ++ r1 := dropLit_sound _ _ _ hd
        set ws := r1.takeWhile isWsChar with hwsdef
        set cp := r3.takeWhile (fun c => c != '"') with hcpdef
        have e2 : r1 = ws ++ ('"' :: r3) := by
          conv_lhs => rw [← List.takeWhile_append_dropWhile isWsChar r1]
          rw [hr2]
        have e3 : r3 = cp ++ ('"' :: rest) := by
          conv_lhs => rw [← List.takeWhile_append_dropWhile (fun c => c != '"') r3]
          rw [hr4]
        rw [e1, e2, e3]
        simp
      · intro c hc; exact List.mem_takeWhile_imp hc
      · intro c hc
        have := List.mem_takeWhile_imp hc
        simpa using this

theorem scanName_sound : ∀ (s cap : List Char), scanName s = some cap →
    ∃ pre ws rest, s = pre ++ nameLit.toList ++ ws ++ '"' :: (cap ++ '"' :: rest) ∧
      ws ≠ [] ∧ (∀ c ∈ ws, isWsChar c = true) ∧ cap ≠ [] ∧ ∀ c ∈ cap, ¬ c = '"' := by
  intro s
  induction s with
  | nil => intro cap h; simp [scanName] at h
  | cons c t ih =>
    intro cap h
    unfold scanName at h
    cases hm : matchNameAt (c :: t) with
    | some cp =>
      rw [hm] at h
      simp only [Option.some.injEq] at h
      subst h
      obtain ⟨ws, rest, heq, h2, h3, h4, h5⟩ := matchNameAt_sound hm
      exact ⟨[], ws, rest, by simpa using heq, h2, h3, h4, h5⟩
    | none =>
      rw [hm] at h
      obtain ⟨pre, ws, rest, heq, h2, h3, h4, h5⟩ := ih cap h
      exact ⟨c :: pre, ws, rest, by simp [heq], h2, h3, h4, h5⟩

theorem removeLoop_spec : ∀ m : Registry,
    (removeLoop m).1 = m.filter (fun kv => !kv.2.completed) ∧
    (removeLoop m).2 =
      (m.filter (fun kv => kv.2.completed)).flatMap (fun kv => noticeOf kv.2) := by
  intro m
  induction m with
  | nil => simp [removeLoop]
  | cons kv t ih =>
    obtain ⟨k, v⟩ := kv
    by_cases hc : v.completed
    · by_cases hmk : (strContains v.name remoteTestMark && v.cached) = true
      · have hm := hmk
        rw [Bool.and_eq_true] at hm
        cases hex : extractName v.name <;>
          simp [removeLoop, List.filter_cons, hc, hm.1, hm.2, hex, noticeOf, ih.1, ih.2]
      · have hm := hmk
        rw [Bool.and_eq_true] at hm
        simp [removeLoop, List.filter_cons, hc, Bool.and_eq_true, hm, noticeOf,
          ih.1, ih.2]
    · simp [removeLoop, List.filter_cons, hc, ih.1, ih.2]

theorem update_single_fresh {t : Trace} {rv : Vertex}
    (h : lookupReg t.ongoing rv.digest = none) (he : rv.error = "") :
    lookupReg ((t.update ⟨[rv], [], []⟩).1).ongoing rv.digest =
      some ⟨rv.name, [], 0, 0, rv.completed, rv.cached⟩ := by
  have hreg := registerVertex_of_none h
  unfold Trace.update
  simp only [procVertexes, he, ne_eq, not_true_eq_false, if_false, List.foldl_nil]
  cases hcr : rv.cached <;> cases hmr : rv.completed <;>
    simp [stepVertexRest, hcr, hmr, lookupReg_modReg_self, hreg, freshInfo]

/-- C8: removeCompletedSteps deletes exactly the completed steps (the
registry afterwards is the filter of the uncompleted ones); the emitted
notices are exactly one cached-test-container notice per deleted step whose
name contains the remote-test marker and whose cached flag is set, named via
the extracted capture when the pattern `--name "<value>"` matches and
generic otherwise (extraction succeeds only on names of that shape); and a
deleted identifier re-sent later is registered as a brand-new step built
from the descriptor alone. -/
theorem c8_thm (t : Trace) (rv : Vertex) (he : rv.error = "")
    (habs : lookupReg ((t.removeCompletedSteps).1).ongoing rv.digest = none) :
    (t.removeCompletedSteps).1.ongoing = t.ongoing.filter (fun kv => !kv.2.completed) ∧
    (t.removeCompletedSteps).2 =
      (t.ongoing.filter (fun kv => kv.2.completed)).flatMap (fun kv => noticeOf kv.2) ∧
    (∀ nm n, extractName nm = some n → ∃ pre ws rest,
      nm.toList = pre ++ nameLit.toList ++ ws ++ '"' :: (n.toList ++ '"' :: rest) ∧
      ws ≠ [] ∧ (∀ c ∈ ws, isWsChar c = true) ∧ n.toList ≠ [] ∧
      ∀ c ∈ n.toList, ¬ c = '"') ∧
    lookupReg (((t.removeCompletedSteps).1).update ⟨[rv], [], []⟩).1.ongoing rv.digest =
      some ⟨rv.name, [], 0, 0, rv.completed, rv.cached⟩ := by
  refine ⟨?_, ?_, ?_, update_single_fresh habs he⟩
  · have h1 := (removeLoop_spec t.ongoing).1
    simpa [Trace.removeCompletedSteps] using h1
  · have h2 := (removeLoop_spec t.ongoing).2
    simpa [Trace.removeCompletedSteps] using h2
  · intro nm n hx
    unfold extractName at hx
    cases hs : scanName nm.toList with
    | none => rw [hs] at hx; exact absurd hx (by simp)
    | some cp =>
      rw [hs] at hx
      simp only [Option.map_some', Option.some.injEq] at hx
      obtain ⟨pre, ws, rest, heq, h2, h3, h4, h5⟩ := scanName_sound nm.toList cp hs
      have hcp : n.toList = cp := by rw [← hx]; rfl
      exact ⟨pre, ws, rest, by rw [hcp]; exact heq, h2, h3, by rw [hcp]; exact h4,
        by rw [hcp]; exact h5⟩

/-! ### Display output counting: the context advisory (C6) -/

theorem dispLine_advice (p : String) (a : DispAcc) (l : LogLine) :
    ((dispLine p a l).1).showCtxAdvice = a.showCtxAdvice ∧
    adviceCount (dispLine p a l).1.out = adviceCount a.out := by
  cases l with
  | empty => simp [dispLine]
  | invalid => simp [dispLine, adviceCount, List.countP_append, isAdviceEv]
  | record stage level message =>
    by_cases h1 : stage = ""
    · simp [dispLine, h1, adviceCount, List.countP_append, isAdviceEv]
    · by_cases h2 : stage = stageDone
      · simp [dispLine, h1, h2, stageDone, adviceCount, List.countP_append, isAdviceEv]
      · by_cases h3 : stage = stageLoadManifest
        · by_cases h4 : level = levelError <;>
            simp [dispLine, h1, h2, h3, h4, stageDone, stageLoadManifest, adviceCount,
              List.countP_append, List.countP_cons, isAdviceEv]
        · by_cases h4 : level = levelError <;>
            by_cases h5 : stage ∈ a.stages <;>
              by_cases h6 : p = TestOutputModeOnBuild <;>
                simp [dispLine, h1, h2, h3, h4, h5, h6, adviceCount,
                  List.countP_append, List.countP_cons, isAdviceEv]

theorem dispLines_advice (p : String) : ∀ (ls : List LogLine) (a : DispAcc),
    ((dispLines p a ls).1).showCtxAdvice = a.showCtxAdvice ∧
    adviceCount (dispLines p a ls).1.out = adviceCount a.out := by
  intro ls
  induction ls with
  | nil => intro a; simp [dispLines]
  | cons l rest ih =>
    intro a
    have hd := dispLine_advice p a l
    rcases hdl : dispLine p a l with ⟨a1, fl⟩
    rw [hdl] at hd
    cases fl with
    | true => simpa [dispLines, hdl] using hd
    | false =>
      have hstep : dispLines p a (l :: rest) = dispLines p a1 rest := by
        simp [dispLines, hdl]
      rw [hstep]
      exact ⟨((ih a1).1).trans hd.1, ((ih a1).2).trans hd.2⟩

theorem dispStepCtx_spec (a : DispAcc) (v : VertexInfo) :
    (dispStepCtx a v).showCtxAdvice = (a.showCtxAdvice && !qualCtx v) ∧
    adviceCount (dispStepCtx a v).out =
      adviceCount a.out + cond (a.showCtxAdvice && qualCtx v) 1 0 ∧
    (dispStepCtx a v).stages = a.stages ∧
    (dispStepCtx a v).err = a.err ∧
    ∀ S, annCount S (dispStepCtx a v).out = annCount S a.out := by
  by_cases hz0 : v.currentTransferedContext = 0
  · have hdec : decide (largeContextThreshold < v.currentTransferedContext) = false := by
      rw [hz0]; decide
    have hzb : (v.currentTransferedContext != 0) = false := by simp [hz0]
    cases hi : isTransferringContext v.name <;> cases hadv : a.showCtxAdvice <;>
      simp [dispStepCtx, qualCtx, hi, hzb, hadv, hdec, adviceCount, annCount,
        List.countP_append, List.countP_cons, isAdviceEv, isAnnEv]
  · have hzb : (v.currentTransferedContext != 0) = true := by simp [hz0]
    cases hi : isTransferringContext v.name <;> cases hadv : a.showCtxAdvice <;>
      cases hdec : decide (largeContextThreshold < v.currentTransferedContext) <;>
        simp [dispStepCtx, qualCtx, hi, hzb, hadv, hdec, adviceCount, annCount,
          List.countP_append, List.countP_cons, isAdviceEv, isAnnEv]

theorem dispStep_advice (p : String) (a : DispAcc) (v : VertexInfo) :
    ((dispStep p a v).1).showCtxAdvice = (a.showCtxAdvice && !qualCtx v) ∧
    adviceCount (dispStep p a v).1.out =
      adviceCount a.out + cond (a.showCtxAdvice && qualCtx v) 1 0 := by
  have hctx := dispStepCtx_spec a v
  by_cases hl : hasCommandLogs v = true
  · simp only [dispStep, hl, if_true]
    cases hsp : spinnerTextOf p with
    | some sp =>
      simp only [hsp]
      have hbase : ({ dispStepCtx a v with
            out := (dispStepCtx a v).out ++ [OutEvent.spinnerMode sp] } :
              DispAcc).showCtxAdvice = (a.showCtxAdvice && !qualCtx v) ∧
          adviceCount ({ dispStepCtx a v with
            out := (dispStepCtx a v).out ++ [OutEvent.spinnerMode sp] } :
              DispAcc).out =
            adviceCount a.out + cond (a.showCtxAdvice && qualCtx v) 1 0 := by
        refine ⟨hctx.1, ?_⟩
        simp only [adviceCount, List.countP_append]
        have := hctx.2.1
        simp only [adviceCount] at this
        simp [this, List.countP_cons, isAdviceEv]
      have hlines := dispLines_advice p v.logs
        { dispStepCtx a v with out := (dispStepCtx a v).out ++ [OutEvent.spinnerMode sp] }
      rcases hdl : dispLines p
          { dispStepCtx a v with out := (dispStepCtx a v).out ++ [OutEvent.spinnerMode sp] }
          v.logs with ⟨a2, fl⟩
      rw [hdl] at hlines
      cases fl with
      | true => simpa [hdl] using ⟨hlines.1.trans hbase.1, hlines.2.trans hbase.2⟩
      | false =>
        simp only [hdl]
        refine ⟨hlines.1.trans hbase.1, ?_⟩
        simp only [adviceCount, List.countP_append]
        have h2 := hlines.2.trans hbase.2
        simp only [adviceCount] at h2
        simp [h2, List.countP_cons, isAdviceEv]
    | none =>
      simp only [hsp]
      have hlines := dispLines_advice p v.logs (dispStepCtx a v)
      rcases hdl : dispLines p (dispStepCtx a v) v.logs with ⟨a2, fl⟩
      rw [hdl] at hlines
      cases fl with
      | true => simpa [hdl] using ⟨hlines.1.trans hctx.1, hlines.2.trans hctx.2.1⟩
      | false =>
        simp only [hdl]
        refine ⟨hlines.1.trans hctx.1, ?_⟩
        simp only [adviceCount, List.countP_append]
        have h2 := hlines.2.trans hctx.2.1
        simp only [adviceCount] at h2
        simp [h2, List.countP_cons, isAdviceEv]
  · simp only [dispStep, hl, if_false]
    exact ⟨hctx.1, hctx.2.1⟩

theorem dispSteps_advice (p : String) : ∀ (m : Registry) (a : DispAcc),
    (a.showCtxAdvice = false →
      ((dispSteps p a m).2.1).showCtxAdvice = false ∧
      adviceCount (dispSteps p a m).2.1.out = adviceCount a.out) ∧
    (adviceCount (dispSteps p a m).2.1.out = adviceCount a.out ∨
      (adviceCount (dispSteps p a m).2.1.out = adviceCount a.out + 1 ∧
       ((dispSteps p a m).2.1).showCtxAdvice = false)) := by
  intro m
  induction m with
  | nil => intro a; simp [dispSteps]
  | cons kv t ih =>
    intro a
    obtain ⟨k, v⟩ := kv
    have hstep := dispStep_advice p a v
    rcases hds : dispStep p a v with ⟨a1, v1, fl⟩
    rw [hds] at hstep
    cases fl with
    | true =>
      simp only [dispSteps, hds]
      constructor
      · intro hfalse
        constructor
        · rw [hstep.1, hfalse]; simp
        · rw [hstep.2, hfalse]; simp
      · rcases hq : (a.showCtxAdvice && qualCtx v) with _ | _
        · left; rw [hstep.2, hq]; simp
        · right
          constructor
          · rw [hstep.2, hq]; simp
          · rw [hstep.1]
            rcases hadv : a.showCtxAdvice with _ | _
            · simp
            · rw [hadv] at hq; simp at hq; simp [hq]
    | false =>
      have hrest := ih a1
      have hgoal : (dispSteps p a ((k, v) :: t)).2.1 = (dispSteps p a1 t).2.1 := by
        simp only [dispSteps, hds]
      rw [hgoal]
      constructor
      · intro hfalse
        have ha1 : a1.showCtxAdvice = false := by
          rw [hstep.1, hfalse]; simp
        have hcnt : adviceCount a1.out = adviceCount a.out := by
          rw [hstep.2, hfalse]; simp
        obtain ⟨hf1, hf2⟩ := hrest.1 ha1
        exact ⟨hf1, hf2.trans hcnt⟩
      · rcases hq : (a.showCtxAdvice && qualCtx v) with _ | _
        · have hcnt : adviceCount a1.out = adviceCount a.out := by
            rw [hstep.2, hq]; simp
          rcases hrest.2 with h | ⟨h, hfin⟩
          · left; rw [h, hcnt]
          · right; exact ⟨by rw [h, hcnt], hfin⟩
        · have hcnt : adviceCount a1.out = adviceCount a.out + 1 := by
            rw [hstep.2, hq]; simp
          have ha1 : a1.showCtxAdvice = false := by
            rw [hstep.1]
            rcases hadv : a.showCtxAdvice with _ | _
            · simp
            · rw [hadv] at hq; simp at hq; simp [hq]
          obtain ⟨hf1, hf2⟩ := hrest.1 ha1
          right
          exact ⟨hf2.trans hcnt, hf1⟩

theorem display_advice (t : Trace) (p : String) :
    (t.showCtxAdvice = false →
      ((t.display p).1).showCtxAdvice = false ∧ adviceCount (t.display p).2.1 = 0) ∧
    (adviceCount (t.display p).2.1 ≤ 1) ∧
    (adviceCount (t.display p).2.1 = 1 → ((t.display p).1).showCtxAdvice = false) := by
  have h := dispSteps_advice p t.ongoing ⟨t.stages, t.showCtxAdvice, t.err, []⟩
  have h0 : adviceCount (⟨t.stages, t.showCtxAdvice, t.err, []⟩ : DispAcc).out = 0 := by
    simp [adviceCount]
  rw [h0] at h
  constructor
  · intro hfalse
    obtain ⟨hf1, hf2⟩ := h.1 hfalse
    exact ⟨hf1, hf2⟩
  constructor
  · rcases h.2 with h2 | ⟨h2, -⟩
    · calc adviceCount (t.display p).2.1 = 0 := h2
        _ ≤ 1 := by decide
    · calc adviceCount (t.display p).2.1 = 0 + 1 := h2
        _ ≤ 1 := by decide
  · intro hone
    rcases h.2 with h2 | ⟨-, hfin⟩
    · exfalso
      have he : adviceCount (t.display p).2.1 = 0 := h2
      rw [he] at hone
      exact absurd hone (by decide)
    · exact hfin

theorem adviceCount_append (l1 l2 : List OutEvent) :
    adviceCount (l1 ++ l2) = adviceCount l1 + adviceCount l2 :=
  List.countP_append _ l1 l2

theorem annCount_append (S : String) (l1 l2 : List OutEvent) :
    annCount S (l1 ++ l2) = annCount S l1 + annCount S l2 :=
  List.countP_append _ l1 l2

theorem removeLoop_countP (pred : OutEvent → Bool)
    (h1 : ∀ n, pred (.skipCachedNamed n) = false)
    (h2 : pred .skipCachedGeneric = false) :
    ∀ m : Registry, (removeLoop m).2.countP pred = 0 := by
  intro m
  induction m with
  | nil => simp [removeLoop]
  | cons kv t ih =>
    obtain ⟨k, v⟩ := kv
    by_cases hc : v.completed = true
    · by_cases hmk : (strContains v.name remoteTestMark && v.cached) = true
      · cases hex : extractName v.name <;>
          simp [removeLoop, hc, hmk, hex, List.countP_cons, h1, h2, ih]
      · simp [removeLoop, hc, hmk, ih]
    · simp [removeLoop, hc, ih]

theorem update_showCtxAdvice (t : Trace) (ss : SolveStatus) :
    ((t.update ss).1).showCtxAdvice = t.showCtxAdvice := by
  obtain ⟨m, hm⟩ := update_fields t ss
  rw [hm]

theorem update_stages_eq (t : Trace) (ss : SolveStatus) :
    ((t.update ss).1).stages = t.stages := by
  obtain ⟨m, hm⟩ := update_fields t ss
  rw [hm]

theorem update_err_eq (t : Trace) (ss : SolveStatus) :
    ((t.update ss).1).err = t.err := by
  obtain ⟨m, hm⟩ := update_fields t ss
  rw [hm]

theorem remove_fields (t : Trace) :
    (t.removeCompletedSteps).1.stages = t.stages ∧
    (t.removeCompletedSteps).1.showCtxAdvice = t.showCtxAdvice ∧
    (t.removeCompletedSteps).1.err = t.err :=
  ⟨rfl, rfl, rfl⟩

theorem runCycle_advice (mode : String) (st : LoopState) (ss : SolveStatus) :
    (st.t.showCtxAdvice = false →
      adviceCount ((runCycle mode st ss).1).out = adviceCount st.out ∧
      ((runCycle mode st ss).1).t.showCtxAdvice = false) ∧
    (adviceCount ((runCycle mode st ss).1).out = adviceCount st.out ∨
      (adviceCount ((runCycle mode st ss).1).out = adviceCount st.out + 1 ∧
       ((runCycle mode st ss).1).t.showCtxAdvice = false)) := by
  rcases hu : st.t.update ss with ⟨t1, o⟩
  have hadv : t1.showCtxAdvice = st.t.showCtxAdvice := by
    have h := update_showCtxAdvice st.t ss
    rw [hu] at h
    exact h
  cases o with
  | some e =>
    simp only [runCycle, hu]
    constructor
    · intro hfalse
      refine ⟨?_, by rw [hadv]; exact hfalse⟩
      simp [adviceCount_append, adviceCount, List.countP_cons, isAdviceEv]
    · left
      simp [adviceCount_append, adviceCount, List.countP_cons, isAdviceEv]
  | none =>
    simp only [runCycle, hu]
    have hdisp := display_advice t1 mode
    rcases hd : t1.display mode with ⟨t2, o2, f⟩
    rw [hd] at hdisp
    have hrm0 : adviceCount (t2.removeCompletedSteps).2 = 0 :=
      removeLoop_countP isAdviceEv (fun n => rfl) rfl t2.ongoing
    cases f with
    | true =>
      simp only [hd, if_true]
      constructor
      · intro hfalse
        have h1 := hdisp.1 (by rw [hadv]; exact hfalse)
        constructor
        · have h2 : adviceCount o2 = 0 := h1.2
          simp [adviceCount_append, h2]
        · exact h1.1
      · have hle := hdisp.2.1
        rcases Nat.le_one_iff_eq_zero_or_eq_one.mp hle with h | h
        · left
          have h2 : adviceCount o2 = 0 := h
          simp [adviceCount_append, h2]
        · right
          have h2 : adviceCount o2 = 1 := h
          exact ⟨by simp [adviceCount_append, h2], hdisp.2.2 h⟩
    | false =>
      simp only [hd, if_false]
      constructor
      · intro hfalse
        have h1 := hdisp.1 (by rw [hadv]; exact hfalse)
        constructor
        · have h2 : adviceCount o2 = 0 := h1.2
          simp [adviceCount_append, h2, hrm0]
        · exact h1.1
      · have hle := hdisp.2.1
        rcases Nat.le_one_iff_eq_zero_or_eq_one.mp hle with h | h
        · left
          have h2 : adviceCount o2 = 0 := h
          simp [adviceCount_append, h2, hrm0]
        · right
          have h2 : adviceCount o2 = 1 := h
          exact ⟨by simp [adviceCount_append, h2, hrm0], hdisp.2.2 h⟩

theorem runLoop_advice (mode : String) : ∀ (batches : List SolveStatus) (st : LoopState),
    (st.t.showCtxAdvice = false →
      adviceCount (runLoop mode st batches).out = adviceCount st.out ∧
      ((runLoop mode st batches).t).showCtxAdvice = false) ∧
    adviceCount (runLoop mode st batches).out ≤ adviceCount st.out + 1 := by
  intro batches
  induction batches with
  | nil =>
    intro st
    refine ⟨fun h => ⟨rfl, h⟩, ?_⟩
    have e : runLoop mode st [] = st := rfl
    rw [e]
    omega
  | cons ss rest ih =>
    intro st
    have hc := runCycle_advice mode st ss
    rcases hcy : runCycle mode st ss with ⟨st1, ab⟩
    rw [hcy] at hc
    dsimp only at hc
    cases ab with
    | true =>
      have hrl : runLoop mode st (ss :: rest) = st1 := by simp [runLoop, hcy]
      rw [hrl]
      constructor
      · intro hfalse; exact hc.1 hfalse
      · rcases hc.2 with h | ⟨h, -⟩ <;> omega
    | false =>
      have hrl : runLoop mode st (ss :: rest) = runLoop mode st1 rest := by
        simp [runLoop, hcy]
      rw [hrl]
      have hr := ih st1
      constructor
      · intro hfalse
        obtain ⟨h1, h2⟩ := hc.1 hfalse
        obtain ⟨h3, h4⟩ := hr.1 h2
        exact ⟨h3.trans h1, h4⟩
      · rcases hc.2 with h | ⟨h, hfin⟩
        · have := hr.2; omega
        · obtain ⟨h3, -⟩ := hr.1 hfin
          omega

/-! ### Exact advisory behaviour on batches without log traffic (C6) -/

theorem AllNL_modReg : ∀ (m : Registry), AllNL m →
    ∀ (f : VertexInfo → VertexInfo), (∀ v, v.logs = [] → (f v).logs = []) →
    ∀ d, AllNL (modReg m d f) := by
  intro m
  induction m with
  | nil => intro _ f _ d kv hkv; simp [modReg] at hkv
  | cons kv0 t ih =>
    intro h f hf d kv hkv
    obtain ⟨k, v⟩ := kv0
    by_cases hk : k = d
    · simp only [modReg, if_pos hk] at hkv
      rcases List.mem_cons.mp hkv with he | ht
      · rw [he]
        exact hf v (h (k, v) (by simp))
      · exact h kv (List.mem_cons_of_mem _ ht)
    · simp only [modReg, if_neg hk] at hkv
      rcases List.mem_cons.mp hkv with he | ht
      · rw [he]
        exact h (k, v) (by simp)
      · exact ih (fun x hx => h x (List.mem_cons_of_mem _ hx)) f hf d kv ht

theorem AllNL_append {m l : Registry} (hm : AllNL m) (hl : AllNL l) :
    AllNL (m ++ l) := by
  intro kv hkv
  rcases List.mem_append.mp hkv with h | h
  exacts [hm kv h, hl kv h]

theorem AllNL_registerVertex {m : Registry} (h : AllNL m) (rv : Vertex) :
    AllNL (registerVertex m rv) := by
  unfold registerVertex
  cases hl : lookupReg m rv.digest with
  | none =>
    refine AllNL_append h ?_
    intro kv hkv
    rw [List.mem_singleton.mp hkv]
    rfl
  | some w => exact h

theorem AllNL_stepVertexRest {m : Registry} (h : AllNL m) (rv : Vertex) :
    AllNL (stepVertexRest m rv) := by
  by_cases hc : rv.cached = true <;> by_cases hm : rv.completed = true <;>
    simp only [stepVertexRest, hc, hm, if_true, if_false]
  · exact AllNL_modReg _
      (AllNL_modReg m h (fun v => { v with cached := true }) (fun v hv => hv) rv.digest)
      (fun v => { v with completed := true }) (fun v hv => hv) rv.digest
  · exact AllNL_modReg m h (fun v => { v with cached := true }) (fun v hv => hv) rv.digest
  · exact AllNL_modReg m h (fun v => { v with completed := true }) (fun v hv => hv) rv.digest
  · exact h

theorem AllNL_procVertexes : ∀ (l : List Vertex) (m : Registry), AllNL m →
    AllNL (procVertexes m l).1 := by
  intro l
  induction l with
  | nil => intro m h; simpa [procVertexes] using h
  | cons rv rest ih =>
    intro m h
    by_cases he : rv.error ≠ ""
    · simpa [procVertexes, he] using AllNL_registerVertex h rv
    · simp only [procVertexes, he, if_false]
      exact ih _ (AllNL_stepVertexRest (AllNL_registerVertex h rv) rv)

theorem AllNL_stepStatus {m : Registry} (h : AllNL m) (s : VertexStatus) :
    AllNL (stepStatus m s) := by
  unfold stepStatus
  cases hl : lookupReg m s.vertex with
  | none => exact h
  | some w =>
    exact AllNL_modReg m h
      (fun v => { v with completed := s.completed, currentTransferedContext := s.current,
                         totalTransferedContext := s.total })
      (fun v hv => hv) s.vertex

theorem AllNL_foldl_status : ∀ (l : List VertexStatus) (m : Registry), AllNL m →
    AllNL (l.foldl stepStatus m) := by
  intro l
  induction l with
  | nil => intro m h; simpa using h
  | cons s rest ih => intro m h; exact ih _ (AllNL_stepStatus h s)

theorem AllNL_update {t : Trace} {ss : SolveStatus} (hlogs : ss.logs = [])
    (h : AllNL t.ongoing) : AllNL ((t.update ss).1).ongoing := by
  unfold Trace.update
  rcases hp : procVertexes t.ongoing ss.vertexes with ⟨m, o⟩
  have hm : AllNL m := by
    have hx := AllNL_procVertexes ss.vertexes t.ongoing h
    rwa [hp] at hx
  cases o with
  | some e => exact hm
  | none =>
    simp only [hlogs, List.foldl_nil]
    exact AllNL_foldl_status ss.statuses m hm

theorem procVertexes_clean : ∀ (l : List Vertex) (m : Registry),
    (∀ v ∈ l, v.error = "") → (procVertexes m l).2 = none := by
  intro l
  induction l with
  | nil => intro m _; rfl
  | cons rv rest ih =>
    intro m h
    have he : rv.error = "" := h rv (by simp)
    simp only [procVertexes, he, ne_eq, not_true_eq_false, if_false]
    exact ih _ (fun v hv => h v (List.mem_cons_of_mem _ hv))

theorem update_clean_none {t : Trace} {ss : SolveStatus}
    (h : ∀ v ∈ ss.vertexes, v.error = "") : (t.update ss).2 = none := by
  unfold Trace.update
  rcases hp : procVertexes t.ongoing ss.vertexes with ⟨m, o⟩
  have ho : o = none := by
    have hx := procVertexes_clean ss.vertexes t.ongoing h
    rwa [hp] at hx
  subst ho
  rfl

theorem dispStep_nolog {v : VertexInfo} (hv : v.logs = []) (p : String) (a : DispAcc) :
    dispStep p a v = (dispStepCtx a v, v, false) := by
  simp [dispStep, hasCommandLogs, hv]

theorem dispSteps_nolog (p : String) : ∀ (m : Registry) (a : DispAcc), AllNL m →
    dispSteps p a m = (m, m.foldl (fun a1 kv => dispStepCtx a1 kv.2) a, false) := by
  intro m
  induction m with
  | nil => intro a _; simp [dispSteps]
  | cons kv t ih =>
    intro a h
    obtain ⟨k, v⟩ := kv
    have hv : v.logs = [] := h (k, v) (by simp)
    simp only [dispSteps, dispStep_nolog hv]
    rw [ih (dispStepCtx a v) (fun x hx => h x (List.mem_cons_of_mem _ hx))]
    simp [List.foldl_cons]

theorem ctxFold_spec : ∀ (m : Registry) (a : DispAcc),
    ((m.foldl (fun a1 kv => dispStepCtx a1 kv.2) a)).showCtxAdvice =
      (a.showCtxAdvice && !anyQual m) ∧
    adviceCount (m.foldl (fun a1 kv => dispStepCtx a1 kv.2) a).out =
      adviceCount a.out + cond (a.showCtxAdvice && anyQual m) 1 0 ∧
    (m.foldl (fun a1 kv => dispStepCtx a1 kv.2) a).stages = a.stages ∧
    (m.foldl (fun a1 kv => dispStepCtx a1 kv.2) a).err = a.err := by
  intro m
  induction m with
  | nil => intro a; simp [anyQual]
  | cons kv t ih =>
    intro a
    obtain ⟨k, v⟩ := kv
    have hc := dispStepCtx_spec a v
    have hr := ih (dispStepCtx a v)
    rw [List.foldl_cons]
    have hany : anyQual ((k, v) :: t) = (qualCtx v || anyQual t) := by
      simp [anyQual]
    refine ⟨?_, ?_, ?_, ?_⟩
    · rw [hr.1, hc.1, hany]
      cases hadv : a.showCtxAdvice <;> cases hq : qualCtx v <;>
        cases hat : anyQual t <;> simp
    · rw [hr.2.1, hc.2.1, hc.1, hany]
      cases hadv : a.showCtxAdvice <;> cases hq : qualCtx v <;>
        cases hat : anyQual t <;> simp
    · rw [hr.2.2.1, hc.2.2.1]
    · rw [hr.2.2.2, hc.2.2.2.1]

theorem display_nolog {t : Trace} (h : AllNL t.ongoing) (p : String) :
    (t.display p).1.ongoing = t.ongoing ∧
    (t.display p).1.stages = t.stages ∧
    (t.display p).1.err = t.err ∧
    (t.display p).1.showCtxAdvice = (t.showCtxAdvice && !anyQual t.ongoing) ∧
    adviceCount (t.display p).2.1 = cond (t.showCtxAdvice && anyQual t.ongoing) 1 0 ∧
    (t.display p).2.2 = false := by
  have hds := dispSteps_nolog p t.ongoing ⟨t.stages, t.showCtxAdvice, t.err, []⟩ h
  have hf := ctxFold_spec t.ongoing ⟨t.stages, t.showCtxAdvice, t.err, []⟩
  unfold Trace.display
  rw [hds]
  dsimp only
  refine ⟨rfl, hf.2.2.1, hf.2.2.2, hf.1, ?_, rfl⟩
  rw [hf.2.1]
  simp [adviceCount]

theorem AllNL_remove {t : Trace} (h : AllNL t.ongoing) :
    AllNL ((t.removeCompletedSteps).1).ongoing := by
  intro kv hkv
  have h1 := (removeLoop_spec t.ongoing).1
  rw [show ((t.removeCompletedSteps).1).ongoing = (removeLoop t.ongoing).1 from rfl,
    h1] at hkv
  exact h kv (List.mem_of_mem_filter hkv)

theorem runCycle_clean (mode : String) {st : LoopState} {ss : SolveStatus}
    (hcb : CleanBatch ss) (h : AllNL st.t.ongoing) :
    (runCycle mode st ss).2 = false ∧
    AllNL ((runCycle mode st ss).1).t.ongoing ∧
    ((runCycle mode st ss).1).t.showCtxAdvice =
      (st.t.showCtxAdvice && !anyQual ((st.t.update ss).1).ongoing) ∧
    adviceCount ((runCycle mode st ss).1).out =
      adviceCount st.out +
        cond (st.t.showCtxAdvice && anyQual ((st.t.update ss).1).ongoing) 1 0 := by
  obtain ⟨hlogs, herrs⟩ := hcb
  have hnone : (st.t.update ss).2 = none := update_clean_none herrs
  have ht1nl : AllNL ((st.t.update ss).1).ongoing := AllNL_update hlogs h
  have ht1adv : ((st.t.update ss).1).showCtxAdvice = st.t.showCtxAdvice :=
    update_showCtxAdvice st.t ss
  rcases hu : st.t.update ss with ⟨t1, o⟩
  rw [hu] at hnone ht1nl ht1adv
  dsimp only at hnone ht1nl ht1adv
  subst hnone
  have hd := display_nolog ht1nl mode
  rcases hdisp : t1.display mode with ⟨t2, o2, f⟩
  rw [hdisp] at hd
  dsimp only at hd
  have hf : f = false := hd.2.2.2.2.2
  subst hf
  have hrm0 : adviceCount (t2.removeCompletedSteps).2 = 0 :=
    removeLoop_countP isAdviceEv (fun n => rfl) rfl t2.ongoing
  have hrc : runCycle mode st ss =
      (⟨(t2.removeCompletedSteps).1,
        st.out ++ o2 ++ (t2.removeCompletedSteps).2⟩, false) := by
    simp only [runCycle, hu, hdisp]
    rfl
  rw [hrc]
  dsimp only
  refine ⟨rfl, ?_, ?_, ?_⟩
  · exact AllNL_remove (t := t2) (by rw [hd.1]; exact ht1nl)
  · rw [show ((t2.removeCompletedSteps).1).showCtxAdvice = t2.showCtxAdvice from rfl,
      hd.2.2.2.1, ht1adv]
  · rw [adviceCount_append, adviceCount_append, hd.2.2.2.2.1, hrm0, ht1adv]
    omega

theorem runLoop_clean (mode : String) : ∀ (bs : List SolveStatus) (st : LoopState),
    (∀ b ∈ bs, CleanBatch b) → AllNL st.t.ongoing →
    adviceCount (runLoop mode st bs).out =
      adviceCount st.out + cond (st.t.showCtxAdvice && qualRun mode st bs) 1 0 := by
  intro bs
  induction bs with
  | nil =>
    intro st _ _
    have e : runLoop mode st [] = st := rfl
    rw [e]
    simp [qualRun]
  | cons ss rest ih =>
    intro st hcb hnl
    have hc := runCycle_clean mode (hcb ss (by simp)) hnl
    rcases hcy : runCycle mode st ss with ⟨st1, ab⟩
    rw [hcy] at hc
    dsimp only at hc
    have hab : ab = false := hc.1
    subst hab
    have hrl : runLoop mode st (ss :: rest) = runLoop mode st1 rest := by
      simp [runLoop, hcy]
    rw [hrl]
    have hihr := ih st1 (fun b hb => hcb b (by simp [hb])) hc.2.1
    rw [hihr, hc.2.2.2]
    have hq : qualRun mode st (ss :: rest) =
        (anyQual ((st.t.update ss).1).ongoing || qualRun mode st1 rest) := by
      simp [qualRun, hcy]
    rw [hq, hc.2.2.1]
    cases hadv : st.t.showCtxAdvice <;>
      cases hq1 : anyQual ((st.t.update ss).1).ongoing <;>
        cases hq2 : qualRun mode st1 rest <;>
          simp [hadv, hq1, hq2]

/-- C6: across all display calls of one trace, the advisory about excluding
files from the build context is printed at most once (for any traffic at
all); and over batches with no log traffic and no erroring vertexes, for
every prefix of the run the advisory has been printed exactly once
precisely when some cycle of that prefix had, at display time, a step
matching the internal context-transfer name pattern with a transferred byte
count exceeding 50,000,000 bytes — so it is printed the first time such a
step appears and never again, even if later or repeated statuses also
exceed the threshold. -/
theorem c6_thm (mode : String) (batches : List SolveStatus) :
    adviceCount (runLoop mode initLoop batches).out ≤ 1 ∧
    ((∀ b ∈ batches, CleanBatch b) →
      ∀ bs1 bs2, batches = bs1 ++ bs2 →
      adviceCount (runLoop mode initLoop bs1).out =
        cond (qualRun mode initLoop bs1) 1 0) := by
  constructor
  · have h := (runLoop_advice mode batches initLoop).2
    simpa [initLoop, adviceCount] using h
  · intro hcb bs1 bs2 hsplit
    have hclean1 : ∀ b ∈ bs1, CleanBatch b := fun b hb =>
      hcb b (by rw [hsplit]; exact List.mem_append_left _ hb)
    have h := runLoop_clean mode bs1 initLoop hclean1
      (by intro kv hkv; simp [initLoop, newTrace] at hkv)
    simpa [initLoop, newTrace, adviceCount] using h

/-- Witness for c6_thm at the scenario-A input: the context step plus a
repeated 60MB status; the advisory is printed exactly once. -/
theorem c6_thm_wit :
    adviceCount (runLoop DeployOutputModeOnBuild initLoop [bCtxV, bCtxS, bCtxS]).out ≤ 1 ∧
    adviceCount (runLoop DeployOutputModeOnBuild initLoop [bCtxV, bCtxS, bCtxS]).out = 1 := by
  have h := c6_thm DeployOutputModeOnBuild [bCtxV, bCtxS, bCtxS]
  refine ⟨h.1, ?_⟩
  have h2 := h.2 (by intro b hb; fin_cases hb <;> exact ⟨rfl, by decide⟩)
    [bCtxV, bCtxS, bCtxS] [] rfl
  rw [h2]
  decide

/-! ### Display output counting: stage announcements (C7) -/

theorem dispLine_ann (S : String) (p : String) (a : DispAcc) (l : LogLine) :
    (S ∈ a.stages →
      annCount S (dispLine p a l).1.out = annCount S a.out ∧
      S ∈ ((dispLine p a l).1).stages) ∧
    (annCount S (dispLine p a l).1.out = annCount S a.out ∨
      (annCount S (dispLine p a l).1.out = annCount S a.out + 1 ∧
       S ∈ ((dispLine p a l).1).stages)) ∧
    (p = TestOutputModeOnBuild →
      annCount S (dispLine p a l).1.out = annCount S a.out) := by
  cases l with
  | empty => simp [dispLine]
  | invalid => simp [dispLine, annCount, List.countP_append, List.countP_cons, isAnnEv]
  | record stage level message =>
    by_cases h1 : stage = ""
    · simp [dispLine, h1, annCount, List.countP_append, List.countP_cons, isAnnEv]
    · by_cases h2 : stage = stageDone
      · simp [dispLine, h1, h2, stageDone, annCount, List.countP_append,
          List.countP_cons, isAnnEv]
      · by_cases h3 : stage = stageLoadManifest
        · by_cases h4 : level = levelError <;>
            simp [dispLine, h1, h2, h3, h4, stageDone, stageLoadManifest, annCount,
              List.countP_append, List.countP_cons, isAnnEv]
        · by_cases h7 : stage = S
          · subst h7
            by_cases h4 : level = levelError <;>
              by_cases h5 : stage ∈ a.stages <;>
                by_cases h6 : p = TestOutputModeOnBuild <;>
                  simp [dispLine, h1, h2, h3, h4, h5, h6, annCount,
                    List.countP_append, List.countP_cons, isAnnEv, List.mem_append]
          · have h7s : ¬ S = stage := fun he => h7 he.symm
            by_cases h4 : level = levelError <;>
              by_cases h5 : stage ∈ a.stages <;>
                by_cases h6 : p = TestOutputModeOnBuild <;>
                  simp [dispLine, h1, h2, h3, h4, h5, h6, h7, h7s, annCount,
                    List.countP_append, List.countP_cons, isAnnEv, List.mem_append]

theorem dispLines_ann (S p : String) : ∀ (ls : List LogLine) (a : DispAcc),
    (S ∈ a.stages →
      annCount S (dispLines p a ls).1.out = annCount S a.out ∧
      S ∈ ((dispLines p a ls).1).stages) ∧
    (annCount S (dispLines p a ls).1.out = annCount S a.out ∨
      (annCount S (dispLines p a ls).1.out = annCount S a.out + 1 ∧
       S ∈ ((dispLines p a ls).1).stages)) ∧
    (p = TestOutputModeOnBuild →
      annCount S (dispLines p a ls).1.out = annCount S a.out) := by
  intro ls
  induction ls with
  | nil => intro a; simp [dispLines]
  | cons l rest ih =>
    intro a
    have hd := dispLine_ann S p a l
    rcases hdl : dispLine p a l with ⟨a1, fl⟩
    rw [hdl] at hd
    dsimp only at hd
    cases fl with
    | true =>
      have hstep : dispLines p a (l :: rest) = (a1, true) := by simp [dispLines, hdl]
      rw [hstep]
      exact hd
    | false =>
      have hstep : dispLines p a (l :: rest) = dispLines p a1 rest := by
        simp [dispLines, hdl]
      rw [hstep]
      have hr := ih a1
      refine ⟨?_, ?_, ?_⟩
      · intro hS
        obtain ⟨hc1, hm1⟩ := hd.1 hS
        obtain ⟨hc2, hm2⟩ := hr.1 hm1
        exact ⟨hc2.trans hc1, hm2⟩
      · rcases hd.2.1 with hsame | ⟨hinc, hmem⟩
        · rcases hr.2.1 with h2 | ⟨h2, hm2⟩
          · left; rw [h2, hsame]
          · right; exact ⟨by rw [h2, hsame], hm2⟩
        · obtain ⟨hc2, hm2⟩ := hr.1 hmem
          right
          exact ⟨by rw [hc2, hinc], hm2⟩
      · intro hT
        rw [hr.2.2 hT, hd.2.2 hT]

theorem dispStep_ann (S p : String) (a : DispAcc) (v : VertexInfo) :
    (S ∈ a.stages →
      annCount S ((dispStep p a v).1).out = annCount S a.out ∧
      S ∈ ((dispStep p a v).1).stages) ∧
    (annCount S ((dispStep p a v).1).out = annCount S a.out ∨
      (annCount S ((dispStep p a v).1).out = annCount S a.out + 1 ∧
       S ∈ ((dispStep p a v).1).stages)) ∧
    (p = TestOutputModeOnBuild →
      annCount S ((dispStep p a v).1).out = annCount S a.out) := by
  have hctx := dispStepCtx_spec a v
  have hcnt0 : annCount S (dispStepCtx a v).out = annCount S a.out := hctx.2.2.2.2 S
  have hstg0 : (dispStepCtx a v).stages = a.stages := hctx.2.2.1
  by_cases hl : hasCommandLogs v = true
  · simp only [dispStep, hl, if_true]
    cases hsp : spinnerTextOf p with
    | some sp =>
      simp only [hsp]
      have hb1 : annCount S ({ dispStepCtx a v with
          out := (dispStepCtx a v).out ++ [OutEvent.spinnerMode sp] } : DispAcc).out =
          annCount S a.out := by
        rw [show ({ dispStepCtx a v with
          out := (dispStepCtx a v).out ++ [OutEvent.spinnerMode sp] } : DispAcc).out =
          (dispStepCtx a v).out ++ [OutEvent.spinnerMode sp] from rfl,
          annCount_append, hcnt0]
        simp [annCount, List.countP_cons, isAnnEv]
      have hb2 : ({ dispStepCtx a v with
          out := (dispStepCtx a v).out ++ [OutEvent.spinnerMode sp] } : DispAcc).stages =
          a.stages := hstg0
      have hls := dispLines_ann S p v.logs
        { dispStepCtx a v with out := (dispStepCtx a v).out ++ [OutEvent.spinnerMode sp] }
      rcases hdl : dispLines p
          { dispStepCtx a v with out := (dispStepCtx a v).out ++ [OutEvent.spinnerMode sp] }
          v.logs with ⟨a2, fl⟩
      rw [hdl] at hls
      dsimp only at hls
      rw [hb1, hb2] at hls
      cases fl with
      | true =>
        simpa using hls
      | false =>
        have hout : annCount S ({ a2 with out := a2.out ++ [OutEvent.stageSet ""] } :
            DispAcc).out = annCount S a2.out := by
          rw [show ({ a2 with out := a2.out ++ [OutEvent.stageSet ""] } : DispAcc).out =
            a2.out ++ [OutEvent.stageSet ""] from rfl, annCount_append]
          simp [annCount, List.countP_cons, isAnnEv]
        refine ⟨?_, ?_, ?_⟩
        · intro hS
          obtain ⟨hc, hm⟩ := hls.1 hS
          exact ⟨by rw [hout]; exact hc, hm⟩
        · rcases hls.2.1 with h | ⟨h, hm⟩
          · left; rw [hout]; exact h
          · right; exact ⟨by rw [hout]; exact h, hm⟩
        · intro hT
          rw [hout]
          exact hls.2.2 hT
    | none =>
      simp only [hsp]
      have hls := dispLines_ann S p v.logs (dispStepCtx a v)
      rcases hdl : dispLines p (dispStepCtx a v) v.logs with ⟨a2, fl⟩
      rw [hdl] at hls
      dsimp only at hls
      rw [hcnt0, hstg0] at hls
      cases fl with
      | true => simpa using hls
      | false =>
        have hout : annCount S ({ a2 with out := a2.out ++ [OutEvent.stageSet ""] } :
            DispAcc).out = annCount S a2.out := by
          rw [show ({ a2 with out := a2.out ++ [OutEvent.stageSet ""] } : DispAcc).out =
            a2.out ++ [OutEvent.stageSet ""] from rfl, annCount_append]
          simp [annCount, List.countP_cons, isAnnEv]
        refine ⟨?_, ?_, ?_⟩
        · intro hS
          obtain ⟨hc, hm⟩ := hls.1 hS
          exact ⟨by rw [hout]; exact hc, hm⟩
        · rcases hls.2.1 with h | ⟨h, hm⟩
          · left; rw [hout]; exact h
          · right; exact ⟨by rw [hout]; exact h, hm⟩
        · intro hT
          rw [hout]
          exact hls.2.2 hT
  · have hds : dispStep p a v = (dispStepCtx a v, v, false) := by
      have hb : hasCommandLogs v = false := by simpa using hl
      simp [dispStep, hb]
    rw [hds]
    dsimp only
    refine ⟨?_, ?_, ?_⟩
    · intro hS
      exact ⟨hcnt0, by rw [hstg0]; exact hS⟩
    · left; exact hcnt0
    · intro _; exact hcnt0

theorem dispSteps_ann (S p : String) : ∀ (m : Registry) (a : DispAcc),
    (S ∈ a.stages →
      annCount S ((dispSteps p a m).2.1).out = annCount S a.out ∧
      S ∈ ((dispSteps p a m).2.1).stages) ∧
    (annCount S ((dispSteps p a m).2.1).out = annCount S a.out ∨
      (annCount S ((dispSteps p a m).2.1).out = annCount S a.out + 1 ∧
       S ∈ ((dispSteps p a m).2.1).stages)) ∧
    (p = TestOutputModeOnBuild →
      annCount S ((dispSteps p a m).2.1).out = annCount S a.out) := by
  intro m
  induction m with
  | nil => intro a; simp [dispSteps]
  | cons kv t ih =>
    intro a
    obtain ⟨k, v⟩ := kv
    have hd := dispStep_ann S p a v
    rcases hds : dispStep p a v with ⟨a1, v1, fl⟩
    rw [hds] at hd
    dsimp only at hd
    cases fl with
    | true =>
      have hstep : (dispSteps p a ((k, v) :: t)).2.1 = a1 := by
        simp only [dispSteps, hds]
      rw [hstep]
      exact hd
    | false =>
      have hstep : (dispSteps p a ((k, v) :: t)).2.1 = (dispSteps p a1 t).2.1 := by
        simp only [dispSteps, hds]
      rw [hstep]
      have hr := ih a1
      refine ⟨?_, ?_, ?_⟩
      · intro hS
        obtain ⟨hc1, hm1⟩ := hd.1 hS
        obtain ⟨hc2, hm2⟩ := hr.1 hm1
        exact ⟨hc2.trans hc1, hm2⟩
      · rcases hd.2.1 with hsame | ⟨hinc, hmem⟩
        · rcases hr.2.1 with h2 | ⟨h2, hm2⟩
          · left; rw [h2, hsame]
          · right; exact ⟨by rw [h2, hsame], hm2⟩
        · obtain ⟨hc2, hm2⟩ := hr.1 hmem
          right
          exact ⟨by rw [hc2, hinc], hm2⟩
      · intro hT
        rw [hr.2.2 hT, hd.2.2 hT]

theorem display_ann (S : String) (t : Trace) (p : String) :
    (S ∈ t.stages →
      annCount S (t.display p).2.1 = 0 ∧ S ∈ ((t.display p).1).stages) ∧
    annCount S (t.display p).2.1 ≤ 1 ∧
    (annCount S (t.display p).2.1 = 1 → S ∈ ((t.display p).1).stages) ∧
    (p = TestOutputModeOnBuild → annCount S (t.display p).2.1 = 0) := by
  have h := dispSteps_ann S p t.ongoing ⟨t.stages, t.showCtxAdvice, t.err, []⟩
  have h0 : annCount S (⟨t.stages, t.showCtxAdvice, t.err, []⟩ : DispAcc).out = 0 := by
    simp [annCount]
  rw [h0] at h
  refine ⟨?_, ?_, ?_, ?_⟩
  · intro hS
    obtain ⟨hc, hm⟩ := h.1 hS
    exact ⟨hc, hm⟩
  · rcases h.2.1 with h2 | ⟨h2, -⟩
    · calc annCount S (t.display p).2.1 = 0 := h2
        _ ≤ 1 := by decide
    · calc annCount S (t.display p).2.1 = 0 + 1 := h2
        _ ≤ 1 := by decide
  · intro hone
    rcases h.2.1 with h2 | ⟨-, hm⟩
    · exfalso
      have he : annCount S (t.display p).2.1 = 0 := h2
      rw [he] at hone
      exact absurd hone (by decide)
    · exact hm
  · intro hT
    exact h.2.2 hT

theorem runCycle_ann (S mode : String) (st : LoopState) (ss : SolveStatus) :
    (S ∈ st.t.stages →
      annCount S ((runCycle mode st ss).1).out = annCount S st.out ∧
      S ∈ ((runCycle mode st ss).1).t.stages) ∧
    (annCount S ((runCycle mode st ss).1).out = annCount S st.out ∨
      (annCount S ((runCycle mode st ss).1).out = annCount S st.out + 1 ∧
       S ∈ ((runCycle mode st ss).1).t.stages)) ∧
    (mode = TestOutputModeOnBuild →
      annCount S ((runCycle mode st ss).1).out = annCount S st.out) := by
  have hstg : ((st.t.update ss).1).stages = st.t.stages := update_stages_eq st.t ss
  rcases hu : st.t.update ss with ⟨t1, o⟩
  rw [hu] at hstg
  dsimp only at hstg
  cases o with
  | some e =>
    have hrc : runCycle mode st ss = (⟨t1, st.out ++ [.updateErrMsg e]⟩, false) := by
      simp only [runCycle, hu]
    rw [hrc]
    dsimp only
    have hcnt : annCount S (st.out ++ [OutEvent.updateErrMsg e]) = annCount S st.out := by
      rw [annCount_append]
      simp [annCount, List.countP_cons, isAnnEv]
    refine ⟨?_, ?_, ?_⟩
    · intro hS
      exact ⟨hcnt, by rw [hstg]; exact hS⟩
    · left; exact hcnt
    · intro _; exact hcnt
  | none =>
    have hd := display_ann S t1 mode
    rcases hdisp : t1.display mode with ⟨t2, o2, f⟩
    rw [hdisp] at hd
    dsimp only at hd
    have hrm : annCount S (t2.removeCompletedSteps).2 = 0 :=
      removeLoop_countP (isAnnEv S) (fun n => rfl) rfl t2.ongoing
    cases f with
    | true =>
      have hrc : runCycle mode st ss = (⟨t2, st.out ++ o2⟩, true) := by
        simp only [runCycle, hu, hdisp]
        rfl
      rw [hrc]
      dsimp only
      refine ⟨?_, ?_, ?_⟩
      · intro hS
        have hS1 : S ∈ t1.stages := by rw [hstg]; exact hS
        obtain ⟨hc, hm⟩ := hd.1 hS1
        exact ⟨by rw [annCount_append, hc]; omega, hm⟩
      · rcases Nat.le_one_iff_eq_zero_or_eq_one.mp hd.2.1 with h2 | h2
        · left; rw [annCount_append, h2]; omega
        · right
          exact ⟨by rw [annCount_append, h2], hd.2.2.1 h2⟩
      · intro hT
        rw [annCount_append, hd.2.2.2 hT]
        omega
    | false =>
      have hrc : runCycle mode st ss =
          (⟨(t2.removeCompletedSteps).1,
            st.out ++ o2 ++ (t2.removeCompletedSteps).2⟩, false) := by
        simp only [runCycle, hu, hdisp]
        rfl
      rw [hrc]
      dsimp only
      have hstg2 : ((t2.removeCompletedSteps).1).stages = t2.stages := rfl
      refine ⟨?_, ?_, ?_⟩
      · intro hS
        have hS1 : S ∈ t1.stages := by rw [hstg]; exact hS
        obtain ⟨hc, hm⟩ := hd.1 hS1
        refine ⟨?_, by rw [hstg2]; exact hm⟩
        rw [annCount_append, annCount_append, hc, hrm]
        omega
      · rcases Nat.le_one_iff_eq_zero_or_eq_one.mp hd.2.1 with h2 | h2
        · left; rw [annCount_append, annCount_append, h2, hrm]; omega
        · right
          refine ⟨by rw [annCount_append, annCount_append, h2, hrm], ?_⟩
          rw [hstg2]
          exact hd.2.2.1 h2
      · intro hT
        rw [annCount_append, annCount_append, hd.2.2.2 hT, hrm]
        omega

theorem runLoop_ann (S mode : String) : ∀ (batches : List SolveStatus) (st : LoopState),
    (S ∈ st.t.stages →
      annCount S (runLoop mode st batches).out = annCount S st.out) ∧
    annCount S (runLoop mode st batches).out ≤ annCount S st.out + 1 ∧
    (mode = TestOutputModeOnBuild →
      annCount S (runLoop mode st batches).out = annCount S st.out) := by
  intro batches
  induction batches with
  | nil =>
    intro st
    have e : runLoop mode st [] = st := rfl
    rw [e]
    exact ⟨fun _ => rfl, by omega, fun _ => rfl⟩
  | cons ss rest ih =>
    intro st
    have hc := runCycle_ann S mode st ss
    rcases hcy : runCycle mode st ss with ⟨st1, ab⟩
    rw [hcy] at hc
    dsimp only at hc
    cases ab with
    | true =>
      have hrl : runLoop mode st (ss :: rest) = st1 := by simp [runLoop, hcy]
      rw [hrl]
      refine ⟨?_, ?_, ?_⟩
      · intro hS
        exact (hc.1 hS).1
      · rcases hc.2.1 with h | ⟨h, -⟩ <;> omega
      · intro hT
        exact hc.2.2 hT
    | false =>
      have hrl : runLoop mode st (ss :: rest) = runLoop mode st1 rest := by
        simp [runLoop, hcy]
      rw [hrl]
      have hr := ih st1
      refine ⟨?_, ?_, ?_⟩
      · intro hS
        obtain ⟨hc1, hm1⟩ := hc.1 hS
        exact (hr.1 hm1).trans hc1
      · rcases hc.2.1 with h | ⟨h, hm⟩
        · have := hr.2.1; omega
        · have h3 := hr.1 hm; omega
      · intro hT
        rw [hr.2.2 hT, hc.2.2 hT]

/-- C7 (amended): for every stage name, the Running-stage announcement is
printed at most once per trace across all display calls; in test mode it is
never printed; in the other modes a decoded record whose stage is not yet
announced triggers it immediately — but only for stages other than the
sentinel done and the special-cased Load manifest, which are never
announced (the claim as stated fails on those, see the counterexample);
and a record whose stage is already announced never prints it again. -/
theorem c7_amended (S : String) :
    (∀ (mode : String) (batches : List SolveStatus),
      annCount S (runLoop mode initLoop batches).out ≤ 1) ∧
    (∀ batches : List SolveStatus,
      annCount S (runLoop TestOutputModeOnBuild initLoop batches).out = 0) ∧
    (∀ (p : String) (a : DispAcc) (lvl msg : String),
      ¬ S ∈ a.stages → ¬ S = "" → ¬ S = stageDone → ¬ S = stageLoadManifest →
      ¬ p = TestOutputModeOnBuild →
      (dispLine p a (.record S lvl msg)).1.out =
        a.out ++ [.stageSet S, .announce S] ++
          (if lvl = levelError then [] else [.printlnMsg msg]) ∧
      (dispLine p a (.record S lvl msg)).1.stages = a.stages ++ [S]) ∧
    (∀ (p : String) (a : DispAcc) (lvl msg : String), S ∈ a.stages →
      annCount S (dispLine p a (.record S lvl msg)).1.out = annCount S a.out) := by
  refine ⟨?_, ?_, ?_, ?_⟩
  · intro mode batches
    have h := (runLoop_ann S mode batches initLoop).2.1
    simpa [initLoop, annCount] using h
  · intro batches
    have h := (runLoop_ann S TestOutputModeOnBuild batches initLoop).2.2 rfl
    simpa [initLoop, annCount] using h
  · intro p a lvl msg hmem h1 h2 h3 hp
    by_cases hlvl : lvl = levelError <;>
      simp [dispLine, h1, h2, h3, hp, hmem, hlvl, List.append_assoc]
  · intro p a lvl msg hmem
    exact ((dispLine_ann S p a (.record S lvl msg)).1 hmem).1

/-- Witness for c7_amended at concrete inputs: the stage build is announced
at most once over a two-batch run, never in test mode, immediately on a
fresh record in deploy mode, and not again once announced. -/
theorem c7_amended_wit :
    annCount ("build")
      (runLoop DeployOutputModeOnBuild initLoop [bAfterErr, bAfterErr]).out ≤ 1 ∧
    annCount ("build") (runLoop TestOutputModeOnBuild initLoop [bAfterErr]).out = 0 ∧
    ((dispLine DeployOutputModeOnBuild aEmptyD (.record ("build") ("info") ("m"))).1.out =
       aEmptyD.out ++ [.stageSet ("build"), .announce ("build")] ++
         [.printlnMsg ("m")] ∧
     (dispLine DeployOutputModeOnBuild aEmptyD
        (.record ("build") ("info") ("m"))).1.stages = aEmptyD.stages ++ ["build"]) ∧
    annCount ("build")
      (dispLine DeployOutputModeOnBuild aW7 (.record ("build") ("info") ("m"))).1.out =
      annCount ("build") aW7.out := by
  have h := c7_amended ("build")
  refine ⟨h.1 DeployOutputModeOnBuild [bAfterErr, bAfterErr], h.2.1 [bAfterErr], ?_,
    h.2.2.2 DeployOutputModeOnBuild aW7 ("info") ("m") (by decide)⟩
  have h3 := h.2.2.1 DeployOutputModeOnBuild aEmptyD ("info") ("m")
    (by decide) (by decide) (by decide) (by decide) (by decide)
  refine ⟨?_, h3.2⟩
  rw [h3.1]
  simp [levelError]

/-- C7 counterexample: a first (and only) record naming the sentinel stage
done is processed in deploy mode — the stage indicator is set, proving the
record went through — yet no Running-stage announcement is printed, while
the claim requires one on the first record naming any stage in a non-test
mode. -/
theorem c7_cex :
    annCount stageDone (t7.display DeployOutputModeOnBuild).2.1 = 0 ∧
    (t7.display DeployOutputModeOnBuild).2.1 =
      [.spinnerMode deployVerb, .stageSet stageDone, .stageSet ("")] := by
  exact ⟨by decide, by decide⟩

/-- Witness for c8_thm at a concrete input: t8 keeps only its uncompleted
step, prints exactly the named skip notice for the cached remote-test step,
the extraction on that name is sound, and the removed key v2 re-registers
fresh. -/
theorem c8_thm_wit :
    (t8.removeCompletedSteps).1.ongoing = t8.ongoing.filter (fun kv => !kv.2.completed) ∧
    (t8.removeCompletedSteps).2 =
      (t8.ongoing.filter (fun kv => kv.2.completed)).flatMap (fun kv => noticeOf kv.2) ∧
    (∃ pre ws rest,
      nameW8.toList = pre ++ nameLit.toList ++ ws ++ '"' ::
        (("unit").toList ++ '"' :: rest) ∧
      ws ≠ [] ∧ (∀ c ∈ ws, isWsChar c = true) ∧ ("unit").toList ≠ [] ∧
      ∀ c ∈ ("unit").toList, ¬ c = '"') ∧
    lookupReg (((t8.removeCompletedSteps).1).update ⟨[vB], [], []⟩).1.ongoing vB.digest =
      some ⟨vB.name, [], 0, 0, vB.completed, vB.cached⟩ := by
  have h := c8_thm t8 vB (by decide) (by decide)
  exact ⟨h.1, h.2.1, h.2.2.1 nameW8 ("unit") (by decide), h.2.2.2⟩

end Okteto

